import Mathlib

/-!
Verification of the recipe-management REST backend (`recipe_api`).

The repository is a Django / Django-REST-framework application.  The parts of
it that decide the claims below are:

* `app/recipe/serializers.py` — the `RecipeSerializer` with its
  `_get_or_create_tags`, `_get_or_create_ingredients`, `create` and `update`
  methods, the `TagSerializer`, `IngredientSerializer` and
  `RecipeImageSerializer`; this file is among the sources and is embedded
  faithfully below.
* `app/recipe/views.py` and `app/core/models.py` — the view sets
  (owner-scoped querysets, the `assigned_only` / `tags` / `ingredients`
  query filters, authentication enforcement, `perform_create`, the
  image-upload action) and the model declarations.  These files are not among
  the sources (only their tests are), so they are modelled from the
  specification; each such definition carries a doc comment starting with
  `Modelled from the spec:`.

The relational store is embedded as a `DB` structure holding lists of rows;
many-to-many links are id lists on the recipe row, mirroring the join table.
Decimal prices are carried as integers (price in cents): no claim involves
price arithmetic.  Response ordering (`-id` for recipes, `-name` for
tags/ingredients) is omitted: no claim depends on ordering.
-/

namespace RecipeApi

/-- A `Tag` row: `core.models.Tag` has a name and an owning user
(a foreign key, embedded as the owner's numeric id). -/
structure Tag where
  id : Nat
  user : Nat
  name : String
deriving Repr, DecidableEq

/-- An `Ingredient` row: `core.models.Ingredient` has a name and an owning
user. -/
structure Ingredient where
  id : Nat
  user : Nat
  name : String
deriving Repr, DecidableEq

/-- A `Recipe` row: `core.models.Recipe` with title, time_minutes, price,
link, description, an optional image and many-to-many links to tags and
ingredients (embedded as the lists of linked row ids). -/
structure Recipe where
  id : Nat
  user : Nat
  title : String
  time_minutes : Nat
  price : Int
  link : String
  description : String
  image : Option String
  tagIds : List Nat
  ingredientIds : List Nat
deriving Repr, DecidableEq

/-- The relational store: the three tables the claims are about, plus the
auto-increment counters for primary keys. -/
structure DB where
  tags : List Tag
  ingredients : List Ingredient
  recipes : List Recipe
  nextTagId : Nat
  nextIngredientId : Nat
  nextRecipeId : Nat
deriving Repr, DecidableEq

/-- `Tag.objects.get_or_create(user=auth_user, **tag)`: look the row up by
(user, name); reuse it when found, otherwise insert a fresh row.  Returns the
id of the resulting row together with the updated store. -/
def getOrCreateTag (u : Nat) (n : String) (db : DB) : Nat × DB :=
  match db.tags.find? (fun t => t.user == u && t.name == n) with
  | some t => (t.id, db)
  | none =>
      (db.nextTagId,
        { db with
            tags := db.tags ++ [⟨db.nextTagId, u, n⟩],
            nextTagId := db.nextTagId + 1 })

/-- `Ingredient.objects.get_or_create(user=auth_user, **ingredient)`. -/
def getOrCreateIngredient (u : Nat) (n : String) (db : DB) : Nat × DB :=
  match db.ingredients.find? (fun t => t.user == u && t.name == n) with
  | some t => (t.id, db)
  | none =>
      (db.nextIngredientId,
        { db with
            ingredients := db.ingredients ++ [⟨db.nextIngredientId, u, n⟩],
            nextIngredientId := db.nextIngredientId + 1 })

/-- `recipe.tag.add(tag_obj)`: the many-to-many `add` is idempotent — it
creates a link only when none exists. -/
def Recipe.addTag (tid : Nat) (r : Recipe) : Recipe :=
  if tid ∈ r.tagIds then r else { r with tagIds := r.tagIds ++ [tid] }

/-- `recipe.ingredient.add(ingredient_obj)`. -/
def Recipe.addIngredient (iid : Nat) (r : Recipe) : Recipe :=
  if iid ∈ r.ingredientIds then r
  else { r with ingredientIds := r.ingredientIds ++ [iid] }

/-- `instance.tag.clear()`: drop every tag link of the recipe. -/
def Recipe.clearTags (r : Recipe) : Recipe := { r with tagIds := [] }

/-- `instance.ingredient.clear()`. -/
def Recipe.clearIngredients (r : Recipe) : Recipe := { r with ingredientIds := [] }

/-- Apply a row-level mutation to the recipe(s) with the given primary key. -/
def DB.mapRecipe (rid : Nat) (f : Recipe → Recipe) (db : DB) : DB :=
  { db with recipes := db.recipes.map (fun r => if r.id == rid then f r else r) }

/-- One iteration of the loop in `RecipeSerializer._get_or_create_tags`:
`tag_obj, created = Tag.objects.get_or_create(...); recipe.tag.add(tag_obj)`. -/
def tagStep (u rid : Nat) (db : DB) (n : String) : DB :=
  let p := getOrCreateTag u n db
  p.2.mapRecipe rid (Recipe.addTag p.1)

/-- One iteration of the loop in
`RecipeSerializer._get_or_create_ingredients`. -/
def ingredientStep (u rid : Nat) (db : DB) (n : String) : DB :=
  let p := getOrCreateIngredient u n db
  p.2.mapRecipe rid (Recipe.addIngredient p.1)

/-- `RecipeSerializer._get_or_create_tags(tags, recipe)`: for each entry of
the validated `tag` list (each a `{"name": ...}` dict, embedded as the name),
get-or-create the row for the authenticated user and link it to the recipe. -/
def getOrCreateTags (u : Nat) (names : List String) (rid : Nat) (db : DB) : DB :=
  names.foldl (tagStep u rid) db

/-- `RecipeSerializer._get_or_create_ingredients(ingredients, recipe)`. -/
def getOrCreateIngredients (u : Nat) (names : List String) (rid : Nat) (db : DB) : DB :=
  names.foldl (ingredientStep u rid) db

/-- The validated payload of a recipe create: the writable fields of
`RecipeSerializer.Meta.fields` (plus `description`, exposed by the detail
serializer).  The nested `tag` / `ingredient` serializers are declared with
`required=False`, so the keys may be absent (`none`). -/
structure CreatePayload where
  title : String
  time_minutes : Nat
  price : Int
  link : String
  description : String
  tag : Option (List String)
  ingredient : Option (List String)
deriving Repr, DecidableEq

/-- A raw create payload as sent on the wire: it may additionally carry a
`user` key.  `user` is not in `RecipeSerializer.Meta.fields`, so validation
drops it (see `validateCreate`). -/
structure RawCreatePayload extends CreatePayload where
  user : Option Nat
deriving Repr, DecidableEq

/-- Validation keeps exactly the declared serializer fields
(`["id", "title", "time_minutes", "price", "link", "tag", "ingredient"]`
plus the detail serializer's `description`); a supplied `user` key is
ignored. -/
def validateCreate (raw : RawCreatePayload) : CreatePayload :=
  raw.toCreatePayload

/-- `RecipeSerializer.create(validated_data)`:

    tags = validated_data.pop("tag", [])
    ingredients = validated_data.pop("ingredient", [])
    recipe = Recipe.objects.create(**validated_data)
    self._get_or_create_tags(tags, recipe)
    self._get_or_create_ingredients(ingredients, recipe)

The view's `perform_create` injects `user=self.request.user` into
`validated_data` (modelled by the `auth` argument, per the spec: create
always attaches the requester as owner).  Returns the created row (as
inserted, before linking) and the updated store. -/
def RecipeSerializer.create (auth : Nat) (p : CreatePayload) (db : DB) : Recipe × DB :=
  let tags := p.tag.getD []
  let ingredients := p.ingredient.getD []
  let r : Recipe :=
    { id := db.nextRecipeId, user := auth, title := p.title,
      time_minutes := p.time_minutes, price := p.price, link := p.link,
      description := p.description, image := none,
      tagIds := [], ingredientIds := [] }
  let db1 : DB :=
    { db with recipes := db.recipes ++ [r], nextRecipeId := db.nextRecipeId + 1 }
  let db2 := getOrCreateTags auth tags r.id db1
  let db3 := getOrCreateIngredients auth ingredients r.id db2
  (r, db3)

/-- The store state right after `Recipe.objects.create(**validated_data)`
inside `RecipeSerializer.create`: the new row is inserted and the
auto-increment counter advanced, before any linking. -/
def insertedDB (auth : Nat) (p : CreatePayload) (db : DB) : DB :=
  { db with recipes := db.recipes ++ [(RecipeSerializer.create auth p db).1],
            nextRecipeId := db.nextRecipeId + 1 }

/-- The validated payload of a recipe update; `none` for a scalar means the
key is absent (PATCH may omit any field), `none` for `tag` / `ingredient`
means the key is absent from the payload. -/
structure UpdatePayload where
  title : Option String
  time_minutes : Option Nat
  price : Option Int
  link : Option String
  description : Option String
  tag : Option (List String)
  ingredient : Option (List String)
deriving Repr, DecidableEq

/-- A raw update payload, possibly carrying a `user` key;
validation ignores it (`user` is not among the serializer fields). -/
structure RawUpdatePayload extends UpdatePayload where
  user : Option Nat
deriving Repr, DecidableEq

/-- Validation of an update payload: keeps exactly the declared serializer
fields, dropping `user`. -/
def validateUpdate (raw : RawUpdatePayload) : UpdatePayload :=
  raw.toUpdatePayload

/-- The `setattr` loop at the end of `RecipeSerializer.update`: every
remaining validated field overwrites the corresponding attribute. -/
def applyScalars (p : UpdatePayload) (r : Recipe) : Recipe :=
  { r with
      title := p.title.getD r.title,
      time_minutes := p.time_minutes.getD r.time_minutes,
      price := p.price.getD r.price,
      link := p.link.getD r.link,
      description := p.description.getD r.description }

/-- `RecipeSerializer.update(instance, validated_data)`:

    tags = validated_data.pop("tag", None)
    ingredients = validated_data.pop("ingredient", [])
    if tags is not None:
        instance.tag.clear()
        self._get_or_create_tags(tags, instance)
    if ingredients is not None:
        instance.ingredient.clear()
        self._get_or_create_ingredients(ingredients, instance)
    for attr, value in validated_data.items():
        setattr(instance, attr, value)
    instance.save()

Note the asymmetry in the source: the `tag` pop defaults to `None`, so an
absent `tag` key skips the clear-and-relink; the `ingredient` pop defaults
to `[]` (a list, never `None`), so the `if ingredients is not None` guard is
always taken and the clear-and-relink runs even when the `ingredient` key is
absent.  The embedding reproduces exactly that. -/
def RecipeSerializer.update (auth : Nat) (rid : Nat) (p : UpdatePayload) (db : DB) : DB :=
  let tags : Option (List String) := p.tag
  let ingredients : List String := p.ingredient.getD []
  let db1 : DB :=
    match tags with
    | some ts => getOrCreateTags auth ts rid (db.mapRecipe rid Recipe.clearTags)
    | none => db
  let db2 : DB :=
    getOrCreateIngredients auth ingredients rid (db1.mapRecipe rid Recipe.clearIngredients)
  db2.mapRecipe rid (applyScalars p)

/-- Modelled from the spec: `views.py` is not among the sources.  The tag
view set's queryset is filtered to `owner == requesting_user`
("all list/detail access to Recipe, Tag, Ingredient is filtered to
`owner == requesting_user`"). -/
def tagQueryset (u : Nat) (db : DB) : List Tag :=
  db.tags.filter (fun t => t.user == u)

/-- Modelled from the spec: the ingredient view set's owner-scoped
queryset. -/
def ingredientQueryset (u : Nat) (db : DB) : List Ingredient :=
  db.ingredients.filter (fun t => t.user == u)

/-- Modelled from the spec: the recipe view set's owner-scoped queryset. -/
def recipeQueryset (u : Nat) (db : DB) : List Recipe :=
  db.recipes.filter (fun r => r.user == u)

/-- Whether a tag is linked to at least one recipe owned by the given
user. -/
def tagAssigned (u : Nat) (t : Tag) (db : DB) : Bool :=
  db.recipes.any (fun r => r.user == u && r.tagIds.contains t.id)

/-- Whether an ingredient is linked to at least one recipe owned by the
given user. -/
def ingredientAssigned (u : Nat) (i : Ingredient) (db : DB) : Bool :=
  db.recipes.any (fun r => r.user == u && r.ingredientIds.contains i.id)

/-- Modelled from the spec: `GET /tags/` — the owner-scoped queryset,
restricted by `assigned_only=1` to rows linked to at least one recipe owned
by the requester, deduplicated (`.distinct()`); ordering is omitted (no
claim depends on it). -/
def listTags (u : Nat) (assignedOnly : Bool) (db : DB) : List Tag :=
  let qs := tagQueryset u db
  let qs := if assignedOnly then qs.filter (fun t => tagAssigned u t db) else qs
  qs.dedup

/-- Modelled from the spec: `GET /ingredients/` with the `assigned_only`
filter. -/
def listIngredients (u : Nat) (assignedOnly : Bool) (db : DB) : List Ingredient :=
  let qs := ingredientQueryset u db
  let qs := if assignedOnly then qs.filter (fun i => ingredientAssigned u i db) else qs
  qs.dedup

/-- Modelled from the spec: `GET /recipes/` — the owner-scoped queryset,
restricted by the `tags=<id,...>` / `ingredients=<id,...>` parameters to
recipes linked to any of the given ids, deduplicated. -/
def listRecipes (u : Nat) (tagFilter ingFilter : Option (List Nat)) (db : DB) : List Recipe :=
  let qs := recipeQueryset u db
  let qs :=
    match tagFilter with
    | none => qs
    | some ids => qs.filter (fun r => ids.any (fun i => r.tagIds.contains i))
  let qs :=
    match ingFilter with
    | none => qs
    | some ids => qs.filter (fun r => ids.any (fun i => r.ingredientIds.contains i))
  qs.dedup

/-- Modelled from the spec: detail lookup on the owner-scoped tag queryset;
a row that is absent or not owned yields `none` (rendered as 404). -/
def retrieveTag (u tid : Nat) (db : DB) : Option Tag :=
  (tagQueryset u db).find? (fun t => t.id == tid)

/-- Modelled from the spec: detail lookup on the owner-scoped ingredient
queryset. -/
def retrieveIngredient (u iid : Nat) (db : DB) : Option Ingredient :=
  (ingredientQueryset u db).find? (fun i => i.id == iid)

/-- Modelled from the spec: detail lookup on the owner-scoped recipe
queryset. -/
def retrieveRecipe (u rid : Nat) (db : DB) : Option Recipe :=
  (recipeQueryset u db).find? (fun r => r.id == rid)

/-- Modelled from the spec: `PATCH /tags/{id}/` — 404 when the row is absent
from the owner-scoped queryset, otherwise rename the row (the
`TagSerializer` exposes `name`, `id` read-only) and answer 200. -/
def updateTagEp (u tid : Nat) (newName : String) (db : DB) : Nat × DB :=
  match retrieveTag u tid db with
  | none => (404, db)
  | some _ =>
      (200, { db with tags := db.tags.map (fun t => if t.id == tid then { t with name := newName } else t) })

/-- Modelled from the spec: `DELETE /tags/{id}/` — 404 when not owned,
otherwise delete the row, drop its links, and answer 204. -/
def deleteTagEp (u tid : Nat) (db : DB) : Nat × DB :=
  match retrieveTag u tid db with
  | none => (404, db)
  | some _ =>
      (204,
        { db with
            tags := db.tags.filter (fun t => !(t.id == tid)),
            recipes := db.recipes.map (fun r => { r with tagIds := r.tagIds.filter (fun i => !(i == tid)) }) })

/-- Modelled from the spec: `PATCH /ingredients/{id}/`. -/
def updateIngredientEp (u iid : Nat) (newName : String) (db : DB) : Nat × DB :=
  match retrieveIngredient u iid db with
  | none => (404, db)
  | some _ =>
      (200, { db with ingredients := db.ingredients.map (fun i => if i.id == iid then { i with name := newName } else i) })

/-- Modelled from the spec: `DELETE /ingredients/{id}/`. -/
def deleteIngredientEp (u iid : Nat) (db : DB) : Nat × DB :=
  match retrieveIngredient u iid db with
  | none => (404, db)
  | some _ =>
      (204,
        { db with
            ingredients := db.ingredients.filter (fun i => !(i.id == iid)),
            recipes := db.recipes.map (fun r => { r with ingredientIds := r.ingredientIds.filter (fun j => !(j == iid)) }) })

/-- Modelled from the spec: `PUT/PATCH /recipes/{id}/` — 404 when the recipe
is absent from the owner-scoped queryset, otherwise run
`RecipeSerializer.update` and answer 200. -/
def updateRecipeEp (u rid : Nat) (raw : RawUpdatePayload) (db : DB) : Nat × DB :=
  match retrieveRecipe u rid db with
  | none => (404, db)
  | some _ => (200, RecipeSerializer.update u rid (validateUpdate raw) db)

/-- Modelled from the spec: `DELETE /recipes/{id}/`. -/
def deleteRecipeEp (u rid : Nat) (db : DB) : Nat × DB :=
  match retrieveRecipe u rid db with
  | none => (404, db)
  | some _ => (204, { db with recipes := db.recipes.filter (fun r => !(r.id == rid)) })

/-- Modelled from the spec: `POST /recipes/` — validation drops the `user`
key, `perform_create` attaches the requester as owner, and the endpoint
answers 201. -/
def createRecipeEp (u : Nat) (raw : RawCreatePayload) (db : DB) : Nat × Recipe × DB :=
  let p := RecipeSerializer.create u (validateCreate raw) db
  (201, p.1, p.2)

/-- An uploaded file; whether it decodes as an image is carried as a flag
(image decoding itself is delegated to the framework's `ImageField`). -/
structure ImageFile where
  filename : String
  isValidImage : Bool
deriving Repr, DecidableEq

/-- Modelled from the spec: `POST /recipes/{id}/upload-image/` — bound to an
existing recipe owned by the requester (404 otherwise); a missing or invalid
file yields a validation error (400) with the store unchanged; a valid file
is stored and the endpoint answers 200 with the recipe's id and image
reference (`RecipeImageSerializer` exposes `id` and `image`). -/
def uploadImageEp (u rid : Nat) (file : Option ImageFile) (db : DB) : Nat × Option (Nat × String) × DB :=
  match retrieveRecipe u rid db with
  | none => (404, none, db)
  | some _ =>
      match file with
      | none => (400, none, db)
      | some f =>
          if f.isValidImage then
            (200, some (rid, f.filename),
              db.mapRecipe rid (fun r => { r with image := some f.filename }))
          else (400, none, db)

/-- The tag rows of the store owned by `u` and named `n` (in a store with
the natural-key uniqueness the design intends, at most one). -/
def tagRowsFor (u : Nat) (n : String) (db : DB) : List Tag :=
  db.tags.filter (fun t => t.user == u && t.name == n)

/-- The ingredient rows of the store owned by `u` and named `n`. -/
def ingredientRowsFor (u : Nat) (n : String) (db : DB) : List Ingredient :=
  db.ingredients.filter (fun t => t.user == u && t.name == n)

/-- No two tag rows share their natural key (owner, name). -/
def DB.TagsUN (db : DB) : Prop :=
  db.tags.Pairwise (fun a b => a.user ≠ b.user ∨ a.name ≠ b.name)

/-- No two ingredient rows share their natural key (owner, name). -/
def DB.IngredientsUN (db : DB) : Prop :=
  db.ingredients.Pairwise (fun a b => a.user ≠ b.user ∨ a.name ≠ b.name)

/-- Every stored primary key is below its auto-increment counter. -/
def DB.Fresh (db : DB) : Prop :=
  (∀ t ∈ db.tags, t.id < db.nextTagId) ∧
  (∀ i ∈ db.ingredients, i.id < db.nextIngredientId) ∧
  (∀ r ∈ db.recipes, r.id < db.nextRecipeId)

/-- Primary keys are unique within each table. -/
def DB.IdsNodup (db : DB) : Prop :=
  (db.tags.map Tag.id).Nodup ∧ (db.ingredients.map Ingredient.id).Nodup ∧
  (db.recipes.map Recipe.id).Nodup

instance (db : DB) : Decidable db.TagsUN := by unfold DB.TagsUN; infer_instance

instance (db : DB) : Decidable db.IngredientsUN := by
  unfold DB.IngredientsUN; infer_instance

instance (db : DB) : Decidable db.Fresh := by unfold DB.Fresh; infer_instance

instance (db : DB) : Decidable db.IdsNodup := by unfold DB.IdsNodup; infer_instance

/-- A request to any of the listed endpoints. -/
inductive Request where
  | recipeList (tagFilter ingFilter : Option (List Nat))
  | recipeDetail (rid : Nat)
  | recipeCreate (raw : RawCreatePayload)
  | recipeUpdate (rid : Nat) (raw : RawUpdatePayload)
  | recipeDelete (rid : Nat)
  | recipeUploadImage (rid : Nat) (file : Option ImageFile)
  | tagList (assignedOnly : Bool)
  | tagUpdate (tid : Nat) (newName : String)
  | tagDelete (tid : Nat)
  | ingredientList (assignedOnly : Bool)
  | ingredientUpdate (iid : Nat) (newName : String)
  | ingredientDelete (iid : Nat)
deriving Repr

/-- Dispatch an authenticated request; returns the status code and the
resulting store. -/
def dispatch (u : Nat) (req : Request) (db : DB) : Nat × DB :=
  match req with
  | .recipeList _ _ => (200, db)
  | .recipeDetail rid =>
      match retrieveRecipe u rid db with
      | none => (404, db)
      | some _ => (200, db)
  | .recipeCreate raw => let p := createRecipeEp u raw db; (p.1, p.2.2)
  | .recipeUpdate rid raw => updateRecipeEp u rid raw db
  | .recipeDelete rid => deleteRecipeEp u rid db
  | .recipeUploadImage rid file => let p := uploadImageEp u rid file db; (p.1, p.2.2)
  | .tagList _ => (200, db)
  | .tagUpdate tid n => updateTagEp u tid n db
  | .tagDelete tid => deleteTagEp u tid db
  | .ingredientList _ => (200, db)
  | .ingredientUpdate iid n => updateIngredientEp u iid n db
  | .ingredientDelete iid => deleteIngredientEp u iid db

/-- Modelled from the spec: every endpoint requires an authenticated
requester; the credential is `none` when absent or invalid, and such a
request is rejected with 401 by the authentication layer before the view
(and hence any data access) runs. -/
def handle (cred : Option Nat) (req : Request) (db : DB) : Nat × DB :=
  match cred with
  | none => (401, db)
  | some u => dispatch u req db

/-! ### Concrete fixture stores and payloads used by witnesses and the C1
failing input -/

/-- A one-recipe fixture for the C5 witness: user 1 owns recipe 1 linked to
tag 4 ("Dessert"). -/
def dbC5 : DB :=
  { tags := [⟨4, 1, "Dessert"⟩], ingredients := [],
    recipes := [{ id := 1, user := 1, title := "cake", time_minutes := 30,
                  price := 500, link := "", description := "", image := none,
                  tagIds := [4], ingredientIds := [] }],
    nextTagId := 5, nextIngredientId := 1, nextRecipeId := 2 }

/-- The C5 witness payload: a PATCH whose whole body is `tag: []`. -/
def updC5 : UpdatePayload :=
  { title := none, time_minutes := none, price := none, link := none,
    description := none, tag := some [], ingredient := none }

/-- The C1 failing input, store side: user 7 owns recipe 1, linked to tag 3
("Dinner") and ingredient 5 ("Salt"). -/
def dbC1 : DB :=
  { tags := [⟨3, 7, "Dinner"⟩], ingredients := [⟨5, 7, "Salt"⟩],
    recipes := [{ id := 1, user := 7, title := "Old title", time_minutes := 5,
                  price := 100, link := "", description := "", image := none,
                  tagIds := [3], ingredientIds := [5] }],
    nextTagId := 10, nextIngredientId := 10, nextRecipeId := 2 }

/-- The C1 failing input, payload side: a PATCH carrying only a new title —
neither a `tag` nor an `ingredient` key. -/
def updC1 : UpdatePayload :=
  { title := some "New title", time_minutes := none, price := none,
    link := none, description := none, tag := none, ingredient := none }

/-- A one-recipe fixture for the C3 witness, owned by user 1. -/
def dbC3 : DB :=
  { tags := [], ingredients := [],
    recipes := [{ id := 1, user := 1, title := "t", time_minutes := 1,
                  price := 1, link := "", description := "", image := none,
                  tagIds := [], ingredientIds := [] }],
    nextTagId := 1, nextIngredientId := 1, nextRecipeId := 2 }

/-- A two-user fixture for the C2 witness: user 2 owns tag 10, ingredient
20 and recipe 30; user 1 owns nothing. -/
def dbC2 : DB :=
  { tags := [⟨10, 2, "Rice"⟩], ingredients := [⟨20, 2, "Noodles"⟩],
    recipes := [{ id := 30, user := 2, title := "Soup", time_minutes := 9,
                  price := 250, link := "", description := "", image := none,
                  tagIds := [10], ingredientIds := [20] }],
    nextTagId := 11, nextIngredientId := 21, nextRecipeId := 31 }

/-- The C4 witness store: user 1 already owns an `Indian` tag. -/
def dbC4 : DB :=
  { tags := [⟨1, 1, "Indian"⟩], ingredients := [], recipes := [],
    nextTagId := 2, nextIngredientId := 1, nextRecipeId := 1 }

/-- The C4 witness payload: the spec's example create with tags `Indian`
(existing) and `Breakfast` (new). -/
def pC4 : CreatePayload :=
  { title := "Pongal", time_minutes := 60, price := 450, link := "",
    description := "", tag := some ["Indian", "Breakfast"], ingredient := none }

/-- The C10 witness store: user 1 owns recipe 1 with no links yet. -/
def dbC10 : DB :=
  { tags := [], ingredients := [],
    recipes := [{ id := 1, user := 1, title := "base", time_minutes := 3,
                  price := 100, link := "", description := "", image := none,
                  tagIds := [], ingredientIds := [] }],
    nextTagId := 1, nextIngredientId := 1, nextRecipeId := 2 }

/-- The C10 witness create payload, with each name duplicated. -/
def pC10 : CreatePayload :=
  { title := "Green Curry", time_minutes := 25, price := 700, link := "",
    description := "", tag := some ["Thai", "Thai"],
    ingredient := some ["Salt", "Salt"] }

/-- The C10 witness update payload, with each name duplicated. -/
def puC10 : UpdatePayload :=
  { title := none, time_minutes := none, price := none, link := none,
    description := none, tag := some ["Lunch", "Lunch"],
    ingredient := some ["Pepper", "Pepper"] }

/-! ### Basic lemmas about the store operations -/

theorem mapRecipe_tags (db : DB) (rid : Nat) (f : Recipe → Recipe) :
    (db.mapRecipe rid f).tags = db.tags := rfl

theorem mapRecipe_ingredients (db : DB) (rid : Nat) (f : Recipe → Recipe) :
    (db.mapRecipe rid f).ingredients = db.ingredients := rfl

theorem mapRecipe_recipes (db : DB) (rid : Nat) (f : Recipe → Recipe) :
    (db.mapRecipe rid f).recipes =
      db.recipes.map (fun r => if r.id == rid then f r else r) := rfl

theorem getOrCreateTag_recipes (u : Nat) (n : String) (db : DB) :
    (getOrCreateTag u n db).2.recipes = db.recipes := by
  rcases hf : db.tags.find? (fun t => t.user == u && t.name == n) with _ | t <;>
    simp [getOrCreateTag, hf]

theorem getOrCreateTag_ingredients (u : Nat) (n : String) (db : DB) :
    (getOrCreateTag u n db).2.ingredients = db.ingredients := by
  rcases hf : db.tags.find? (fun t => t.user == u && t.name == n) with _ | t <;>
    simp [getOrCreateTag, hf]

theorem getOrCreateIngredient_recipes (u : Nat) (n : String) (db : DB) :
    (getOrCreateIngredient u n db).2.recipes = db.recipes := by
  rcases hf : db.ingredients.find? (fun t => t.user == u && t.name == n) with _ | t <;>
    simp [getOrCreateIngredient, hf]

theorem getOrCreateIngredient_tags (u : Nat) (n : String) (db : DB) :
    (getOrCreateIngredient u n db).2.tags = db.tags := by
  rcases hf : db.ingredients.find? (fun t => t.user == u && t.name == n) with _ | t <;>
    simp [getOrCreateIngredient, hf]

/-- Case analysis on `get_or_create` for tags: either an existing row with
the requested natural key is reused (store untouched), or no row matched and
a fresh one is appended. -/
theorem getOrCreateTag_cases (u : Nat) (n : String) (db : DB) :
    ((getOrCreateTag u n db).2.tags = db.tags ∧
      ∃ t ∈ db.tags, t.user = u ∧ t.name = n ∧ t.id = (getOrCreateTag u n db).1) ∨
    ((getOrCreateTag u n db).2.tags = db.tags ++ [⟨db.nextTagId, u, n⟩] ∧
      (getOrCreateTag u n db).1 = db.nextTagId ∧
      ∀ t ∈ db.tags, ¬(t.user = u ∧ t.name = n)) := by
  rcases hf : db.tags.find? (fun t => t.user == u && t.name == n) with _ | t
  · right
    refine ⟨?_, ?_, fun t ht hc => ?_⟩
    · simp [getOrCreateTag, hf]
    · simp [getOrCreateTag, hf]
    · have := List.find?_eq_none.mp hf t ht
      simp only [Bool.and_eq_true, beq_iff_eq] at this
      exact this ⟨hc.1, hc.2⟩
  · left
    have hmem := List.mem_of_find?_eq_some hf
    have hp := List.find?_some hf
    simp only [Bool.and_eq_true, beq_iff_eq] at hp
    exact ⟨by simp [getOrCreateTag, hf], t, hmem, hp.1, hp.2, by simp [getOrCreateTag, hf]⟩

/-- Case analysis on `get_or_create` for ingredients. -/
theorem getOrCreateIngredient_cases (u : Nat) (n : String) (db : DB) :
    ((getOrCreateIngredient u n db).2.ingredients = db.ingredients ∧
      ∃ t ∈ db.ingredients, t.user = u ∧ t.name = n ∧
        t.id = (getOrCreateIngredient u n db).1) ∨
    ((getOrCreateIngredient u n db).2.ingredients =
        db.ingredients ++ [⟨db.nextIngredientId, u, n⟩] ∧
      (getOrCreateIngredient u n db).1 = db.nextIngredientId ∧
      ∀ t ∈ db.ingredients, ¬(t.user = u ∧ t.name = n)) := by
  rcases hf : db.ingredients.find? (fun t => t.user == u && t.name == n) with _ | t
  · right
    refine ⟨?_, ?_, fun t ht hc => ?_⟩
    · simp [getOrCreateIngredient, hf]
    · simp [getOrCreateIngredient, hf]
    · have := List.find?_eq_none.mp hf t ht
      simp only [Bool.and_eq_true, beq_iff_eq] at this
      exact this ⟨hc.1, hc.2⟩
  · left
    have hmem := List.mem_of_find?_eq_some hf
    have hp := List.find?_some hf
    simp only [Bool.and_eq_true, beq_iff_eq] at hp
    exact ⟨by simp [getOrCreateIngredient, hf], t, hmem, hp.1, hp.2, by simp [getOrCreateIngredient, hf]⟩

/-- The `get_or_create` result always points at some row with the requested
natural key present in the resulting store. -/
theorem getOrCreateTag_spec (u : Nat) (n : String) (db : DB) :
    ∃ t ∈ (getOrCreateTag u n db).2.tags,
      t.user = u ∧ t.name = n ∧ t.id = (getOrCreateTag u n db).1 := by
  rcases getOrCreateTag_cases u n db with ⟨heq, t, ht, h1, h2, h3⟩ | ⟨heq, hid, _⟩
  · exact ⟨t, heq ▸ ht, h1, h2, h3⟩
  · exact ⟨⟨db.nextTagId, u, n⟩, by rw [heq]; exact List.mem_append_right _ (List.mem_singleton_self _), rfl, rfl, hid.symm⟩

theorem getOrCreateIngredient_spec (u : Nat) (n : String) (db : DB) :
    ∃ t ∈ (getOrCreateIngredient u n db).2.ingredients,
      t.user = u ∧ t.name = n ∧ t.id = (getOrCreateIngredient u n db).1 := by
  rcases getOrCreateIngredient_cases u n db with ⟨heq, t, ht, h1, h2, h3⟩ | ⟨heq, hid, _⟩
  · exact ⟨t, heq ▸ ht, h1, h2, h3⟩
  · exact ⟨⟨db.nextIngredientId, u, n⟩, by rw [heq]; exact List.mem_append_right _ (List.mem_singleton_self _), rfl, rfl, hid.symm⟩

/-- Existing tag rows survive a `get_or_create`. -/
theorem getOrCreateTag_mono (u : Nat) (n : String) (db : DB) {t : Tag}
    (h : t ∈ db.tags) : t ∈ (getOrCreateTag u n db).2.tags := by
  rcases getOrCreateTag_cases u n db with ⟨heq, _⟩ | ⟨heq, _, _⟩ <;> rw [heq]
  · exact h
  · exact List.mem_append_left _ h

theorem getOrCreateIngredient_mono (u : Nat) (n : String) (db : DB) {t : Ingredient}
    (h : t ∈ db.ingredients) : t ∈ (getOrCreateIngredient u n db).2.ingredients := by
  rcases getOrCreateIngredient_cases u n db with ⟨heq, _⟩ | ⟨heq, _, _⟩ <;> rw [heq]
  · exact h
  · exact List.mem_append_left _ h

/-! ### Row-level frame lemmas -/

theorem addTag_id (tid : Nat) (r : Recipe) : (Recipe.addTag tid r).id = r.id := by
  unfold Recipe.addTag; split <;> rfl

theorem addTag_user (tid : Nat) (r : Recipe) : (Recipe.addTag tid r).user = r.user := by
  unfold Recipe.addTag; split <;> rfl

theorem addTag_ingredientIds (tid : Nat) (r : Recipe) :
    (Recipe.addTag tid r).ingredientIds = r.ingredientIds := by
  unfold Recipe.addTag; split <;> rfl

theorem addTag_mem (tid : Nat) (r : Recipe) : tid ∈ (Recipe.addTag tid r).tagIds := by
  unfold Recipe.addTag; split
  · assumption
  · exact List.mem_append_right _ (List.mem_singleton_self _)

theorem addTag_mem_of (tid x : Nat) (r : Recipe) (h : x ∈ r.tagIds) :
    x ∈ (Recipe.addTag tid r).tagIds := by
  unfold Recipe.addTag; split
  · exact h
  · exact List.mem_append_left _ h

theorem addTag_nodup (tid : Nat) (r : Recipe) (h : r.tagIds.Nodup) :
    (Recipe.addTag tid r).tagIds.Nodup := by
  unfold Recipe.addTag; split
  · exact h
  · rename_i hmem
    simpa using List.Nodup.append h (List.nodup_singleton tid) (by simpa using hmem)

theorem addIngredient_id (iid : Nat) (r : Recipe) : (Recipe.addIngredient iid r).id = r.id := by
  unfold Recipe.addIngredient; split <;> rfl

theorem addIngredient_user (iid : Nat) (r : Recipe) :
    (Recipe.addIngredient iid r).user = r.user := by
  unfold Recipe.addIngredient; split <;> rfl

theorem addIngredient_tagIds (iid : Nat) (r : Recipe) :
    (Recipe.addIngredient iid r).tagIds = r.tagIds := by
  unfold Recipe.addIngredient; split <;> rfl

theorem addIngredient_mem (iid : Nat) (r : Recipe) :
    iid ∈ (Recipe.addIngredient iid r).ingredientIds := by
  unfold Recipe.addIngredient; split
  · assumption
  · exact List.mem_append_right _ (List.mem_singleton_self _)

theorem addIngredient_mem_of (iid x : Nat) (r : Recipe) (h : x ∈ r.ingredientIds) :
    x ∈ (Recipe.addIngredient iid r).ingredientIds := by
  unfold Recipe.addIngredient; split
  · exact h
  · exact List.mem_append_left _ h

theorem addIngredient_nodup (iid : Nat) (r : Recipe) (h : r.ingredientIds.Nodup) :
    (Recipe.addIngredient iid r).ingredientIds.Nodup := by
  unfold Recipe.addIngredient; split
  · exact h
  · rename_i hmem
    simpa using List.Nodup.append h (List.nodup_singleton iid) (by simpa using hmem)

/-! ### `mapRecipe` propagation lemmas -/

/-- A property of the recipes with a given primary key is established by
mapping a function that makes it hold. -/
theorem mapRecipe_establish {Q : Recipe → Prop} (db : DB) (rid : Nat)
    (f : Recipe → Recipe) (hf : ∀ r, Q (f r)) :
    ∀ r ∈ (db.mapRecipe rid f).recipes, r.id = rid → Q r := by
  intro r' hr' hid
  rw [mapRecipe_recipes] at hr'
  obtain ⟨r, hr, hEq⟩ := List.mem_map.mp hr'
  by_cases h : r.id == rid
  · rw [if_pos h] at hEq; exact hEq ▸ hf r
  · rw [if_neg h] at hEq
    exact absurd (hEq ▸ hid) (by simpa using h)

/-- A property of the recipes with a given primary key is preserved by
mapping an id-preserving function that preserves it. -/
theorem mapRecipe_preserve {Q : Recipe → Prop} (db : DB) (rid0 rid : Nat)
    (f : Recipe → Recipe) (hfid : ∀ r, (f r).id = r.id)
    (hf : ∀ r, Q r → Q (f r))
    (h : ∀ r ∈ db.recipes, r.id = rid0 → Q r) :
    ∀ r ∈ (db.mapRecipe rid f).recipes, r.id = rid0 → Q r := by
  intro r' hr' hid
  rw [mapRecipe_recipes] at hr'
  obtain ⟨r, hr, hEq⟩ := List.mem_map.mp hr'
  by_cases hb : r.id == rid
  · rw [if_pos hb] at hEq
    have hrid : r.id = rid0 := by rw [← hid, ← hEq, hfid]
    exact hEq ▸ hf r (h r hr hrid)
  · rw [if_neg hb] at hEq
    exact hEq ▸ h r hr (hEq ▸ hid)

/-- Mapping an id- and user-preserving function over a recipe leaves the
(id, user) column pair of the table unchanged. -/
theorem mapRecipe_idUser (db : DB) (rid : Nat) (f : Recipe → Recipe)
    (hf : ∀ r, (f r).id = r.id ∧ (f r).user = r.user) :
    (db.mapRecipe rid f).recipes.map (fun r => (r.id, r.user)) =
      db.recipes.map (fun r => (r.id, r.user)) := by
  rw [mapRecipe_recipes, List.map_map]
  refine List.map_congr_left (fun r _ => ?_)
  simp only [Function.comp_apply]
  split
  · exact Prod.ext (hf r).1 (hf r).2
  · rfl

/-! ### Fold-level lemmas for `_get_or_create_tags` -/

theorem tagStep_tags (u rid : Nat) (db : DB) (n : String) :
    (tagStep u rid db n).tags = (getOrCreateTag u n db).2.tags := rfl

theorem tagStep_ingredients (u rid : Nat) (db : DB) (n : String) :
    (tagStep u rid db n).ingredients = db.ingredients :=
  getOrCreateTag_ingredients u n db

theorem tagStep_recipes (u rid : Nat) (db : DB) (n : String) :
    (tagStep u rid db n).recipes =
      db.recipes.map
        (fun r => if r.id == rid then Recipe.addTag (getOrCreateTag u n db).1 r else r) := by
  show ((getOrCreateTag u n db).2.mapRecipe rid (Recipe.addTag (getOrCreateTag u n db).1)).recipes = _
  rw [mapRecipe_recipes, getOrCreateTag_recipes]

theorem ingredientStep_ingredients (u rid : Nat) (db : DB) (n : String) :
    (ingredientStep u rid db n).ingredients = (getOrCreateIngredient u n db).2.ingredients := rfl

theorem ingredientStep_tags (u rid : Nat) (db : DB) (n : String) :
    (ingredientStep u rid db n).tags = db.tags :=
  getOrCreateIngredient_tags u n db

theorem ingredientStep_recipes (u rid : Nat) (db : DB) (n : String) :
    (ingredientStep u rid db n).recipes =
      db.recipes.map
        (fun r =>
          if r.id == rid then Recipe.addIngredient (getOrCreateIngredient u n db).1 r else r) := by
  show ((getOrCreateIngredient u n db).2.mapRecipe rid
      (Recipe.addIngredient (getOrCreateIngredient u n db).1)).recipes = _
  rw [mapRecipe_recipes, getOrCreateIngredient_recipes]

theorem getOrCreateTags_nil (u rid : Nat) (db : DB) :
    getOrCreateTags u [] rid db = db := rfl

theorem getOrCreateTags_cons (u rid : Nat) (db : DB) (a : String) (l : List String) :
    getOrCreateTags u (a :: l) rid db = getOrCreateTags u l rid (tagStep u rid db a) := rfl

theorem getOrCreateIngredients_nil (u rid : Nat) (db : DB) :
    getOrCreateIngredients u [] rid db = db := rfl

theorem getOrCreateIngredients_cons (u rid : Nat) (db : DB) (a : String) (l : List String) :
    getOrCreateIngredients u (a :: l) rid db =
      getOrCreateIngredients u l rid (ingredientStep u rid db a) := rfl

theorem getOrCreateTags_ingredients (u rid : Nat) (ns : List String) (db : DB) :
    (getOrCreateTags u ns rid db).ingredients = db.ingredients := by
  induction ns generalizing db with
  | nil => rfl
  | cons a l ih => rw [getOrCreateTags_cons, ih, tagStep_ingredients]

theorem getOrCreateIngredients_tags (u rid : Nat) (ns : List String) (db : DB) :
    (getOrCreateIngredients u ns rid db).tags = db.tags := by
  induction ns generalizing db with
  | nil => rfl
  | cons a l ih => rw [getOrCreateIngredients_cons, ih, ingredientStep_tags]

theorem getOrCreateTags_tags_mono (u rid : Nat) (ns : List String) (db : DB) {t : Tag}
    (h : t ∈ db.tags) : t ∈ (getOrCreateTags u ns rid db).tags := by
  induction ns generalizing db with
  | nil => exact h
  | cons a l ih =>
      rw [getOrCreateTags_cons]
      refine ih _ ?_
      rw [tagStep_tags]
      exact getOrCreateTag_mono u a db h

theorem getOrCreateIngredients_mono (u rid : Nat) (ns : List String) (db : DB) {t : Ingredient}
    (h : t ∈ db.ingredients) : t ∈ (getOrCreateIngredients u ns rid db).ingredients := by
  induction ns generalizing db with
  | nil => exact h
  | cons a l ih =>
      rw [getOrCreateIngredients_cons]
      refine ih _ ?_
      rw [ingredientStep_ingredients]
      exact getOrCreateIngredient_mono u a db h

/-! ### Natural-key uniqueness -/

/-- A filter whose predicate contradicts a pairwise relation of the list
keeps at most one element. -/
theorem filter_length_le_one_of_pairwise {α : Type} {R : α → α → Prop} {l : List α}
    {p : α → Bool} (h : l.Pairwise R)
    (hp : ∀ a b, p a = true → p b = true → R a b → False) :
    (l.filter p).length ≤ 1 := by
  rcases hl : l.filter p with _ | ⟨a, _ | ⟨b, rest⟩⟩
  · simp
  · simp
  · exfalso
    have hpf : (l.filter p).Pairwise R := h.filter p
    rw [hl] at hpf
    have hR : R a b := (List.pairwise_cons.mp hpf).1 b (by simp)
    have ha : p a = true := by
      have : a ∈ l.filter p := by rw [hl]; simp
      exact (List.mem_filter.mp this).2
    have hb : p b = true := by
      have : b ∈ l.filter p := by rw [hl]; simp
      exact (List.mem_filter.mp this).2
    exact hp a b ha hb hR

/-- Two members of a list of length at most one coincide. -/
theorem eq_of_mem_of_length_le_one {α : Type} {l : List α} {a b : α}
    (h : l.length ≤ 1) (ha : a ∈ l) (hb : b ∈ l) : a = b := by
  rcases l with _ | ⟨x, _ | ⟨y, rest⟩⟩
  · cases ha
  · rw [List.mem_singleton] at ha hb; rw [ha, hb]
  · simp at h

/-- Under natural-key uniqueness there is at most one tag row per
(owner, name). -/
theorem tagRowsFor_length_le_one {db : DB} (h : db.TagsUN) (u : Nat) (n : String) :
    (tagRowsFor u n db).length ≤ 1 := by
  refine filter_length_le_one_of_pairwise h (fun a b hpa hpb hR => ?_)
  simp only [Bool.and_eq_true, beq_iff_eq] at hpa hpb
  rcases hR with h' | h'
  · exact h' (hpa.1.trans hpb.1.symm)
  · exact h' (hpa.2.trans hpb.2.symm)

theorem ingredientRowsFor_length_le_one {db : DB} (h : db.IngredientsUN) (u : Nat) (n : String) :
    (ingredientRowsFor u n db).length ≤ 1 := by
  refine filter_length_le_one_of_pairwise h (fun a b hpa hpb hR => ?_)
  simp only [Bool.and_eq_true, beq_iff_eq] at hpa hpb
  rcases hR with h' | h'
  · exact h' (hpa.1.trans hpb.1.symm)
  · exact h' (hpa.2.trans hpb.2.symm)

/-- `get_or_create` never duplicates a natural key. -/
theorem TagsUN_getOrCreateTag {db : DB} (h : db.TagsUN) (u : Nat) (n : String) :
    (getOrCreateTag u n db).2.TagsUN := by
  rcases getOrCreateTag_cases u n db with ⟨heq, _⟩ | ⟨heq, _, hnone⟩ <;>
      unfold DB.TagsUN at h ⊢ <;> rw [heq]
  · exact h
  · rw [List.pairwise_append]
    refine ⟨h, by simp, fun a ha b hb => ?_⟩
    rw [List.mem_singleton] at hb
    subst hb
    by_contra hcon
    push_neg at hcon
    exact hnone a ha ⟨hcon.1, hcon.2⟩

theorem IngredientsUN_getOrCreateIngredient {db : DB} (h : db.IngredientsUN)
    (u : Nat) (n : String) : (getOrCreateIngredient u n db).2.IngredientsUN := by
  rcases getOrCreateIngredient_cases u n db with ⟨heq, _⟩ | ⟨heq, _, hnone⟩ <;>
      unfold DB.IngredientsUN at h ⊢ <;> rw [heq]
  · exact h
  · rw [List.pairwise_append]
    refine ⟨h, by simp, fun a ha b hb => ?_⟩
    rw [List.mem_singleton] at hb
    subst hb
    by_contra hcon
    push_neg at hcon
    exact hnone a ha ⟨hcon.1, hcon.2⟩

theorem TagsUN_tagStep {db : DB} (h : db.TagsUN) (u rid : Nat) (n : String) :
    (tagStep u rid db n).TagsUN := by
  unfold DB.TagsUN
  rw [tagStep_tags]
  exact TagsUN_getOrCreateTag h u n

theorem TagsUN_getOrCreateTags {db : DB} (h : db.TagsUN) (u rid : Nat) (ns : List String) :
    (getOrCreateTags u ns rid db).TagsUN := by
  induction ns generalizing db with
  | nil => exact h
  | cons a l ih => rw [getOrCreateTags_cons]; exact ih (TagsUN_tagStep h u rid a)

theorem IngredientsUN_ingredientStep {db : DB} (h : db.IngredientsUN) (u rid : Nat)
    (n : String) : (ingredientStep u rid db n).IngredientsUN := by
  unfold DB.IngredientsUN
  rw [ingredientStep_ingredients]
  exact IngredientsUN_getOrCreateIngredient h u n

theorem IngredientsUN_getOrCreateIngredients {db : DB} (h : db.IngredientsUN)
    (u rid : Nat) (ns : List String) : (getOrCreateIngredients u ns rid db).IngredientsUN := by
  induction ns generalizing db with
  | nil => exact h
  | cons a l ih => rw [getOrCreateIngredients_cons]; exact ih (IngredientsUN_ingredientStep h u rid a)

/-! ### Propagation of recipe-row properties through the linking folds -/

theorem getOrCreateTags_preserve {Q : Recipe → Prop} (u rid rid0 : Nat) (ns : List String)
    (db : DB) (hQ : ∀ tid r, Q r → Q (Recipe.addTag tid r))
    (h : ∀ r ∈ db.recipes, r.id = rid0 → Q r) :
    ∀ r ∈ (getOrCreateTags u ns rid db).recipes, r.id = rid0 → Q r := by
  induction ns generalizing db with
  | nil => exact h
  | cons a l ih =>
      rw [getOrCreateTags_cons]
      refine ih _ ?_
      intro r hr hid
      have hrec : (tagStep u rid db a).recipes =
          ((getOrCreateTag u a db).2.mapRecipe rid
            (Recipe.addTag (getOrCreateTag u a db).1)).recipes := rfl
      have h' : ∀ r' ∈ (getOrCreateTag u a db).2.recipes, r'.id = rid0 → Q r' := by
        rw [getOrCreateTag_recipes]; exact h
      exact mapRecipe_preserve _ rid0 rid _ (addTag_id _) (hQ _) h' r (hrec ▸ hr) hid

theorem getOrCreateIngredients_preserve {Q : Recipe → Prop} (u rid rid0 : Nat)
    (ns : List String) (db : DB)
    (hQ : ∀ iid r, Q r → Q (Recipe.addIngredient iid r))
    (h : ∀ r ∈ db.recipes, r.id = rid0 → Q r) :
    ∀ r ∈ (getOrCreateIngredients u ns rid db).recipes, r.id = rid0 → Q r := by
  induction ns generalizing db with
  | nil => exact h
  | cons a l ih =>
      rw [getOrCreateIngredients_cons]
      refine ih _ ?_
      intro r hr hid
      have hrec : (ingredientStep u rid db a).recipes =
          ((getOrCreateIngredient u a db).2.mapRecipe rid
            (Recipe.addIngredient (getOrCreateIngredient u a db).1)).recipes := rfl
      have h' : ∀ r' ∈ (getOrCreateIngredient u a db).2.recipes, r'.id = rid0 → Q r' := by
        rw [getOrCreateIngredient_recipes]; exact h
      exact mapRecipe_preserve _ rid0 rid _ (addIngredient_id _) (hQ _) h' r (hrec ▸ hr) hid

/-- Every name of the processed list ends up backed by a row with the
requested natural key that is linked to every recipe with the target id. -/
theorem getOrCreateTags_link (u rid : Nat) (ns : List String) (db : DB) {n : String}
    (hn : n ∈ ns) :
    ∃ t ∈ (getOrCreateTags u ns rid db).tags, t.user = u ∧ t.name = n ∧
      ∀ r ∈ (getOrCreateTags u ns rid db).recipes, r.id = rid → t.id ∈ r.tagIds := by
  induction ns generalizing db with
  | nil => cases hn
  | cons a l ih =>
      rw [getOrCreateTags_cons]
      rcases List.mem_cons.mp hn with rfl | hn'
      · obtain ⟨t, ht, hu, hnm, hid⟩ := getOrCreateTag_spec u n db
        refine ⟨t, ?_, hu, hnm, ?_⟩
        · refine getOrCreateTags_tags_mono u rid l _ ?_
          rw [tagStep_tags]
          exact ht
        · refine getOrCreateTags_preserve u rid rid l _
            (fun tid r h => addTag_mem_of tid t.id r h) ?_
          intro r hr hrid
          have hrec : (tagStep u rid db n).recipes =
              ((getOrCreateTag u n db).2.mapRecipe rid
                (Recipe.addTag (getOrCreateTag u n db).1)).recipes := rfl
          have := mapRecipe_establish (Q := fun r => t.id ∈ r.tagIds)
            (getOrCreateTag u n db).2 rid (Recipe.addTag (getOrCreateTag u n db).1)
            (fun r => hid ▸ addTag_mem _ r)
          exact this r (hrec ▸ hr) hrid
      · exact ih _ hn'

theorem getOrCreateIngredients_link (u rid : Nat) (ns : List String) (db : DB) {n : String}
    (hn : n ∈ ns) :
    ∃ t ∈ (getOrCreateIngredients u ns rid db).ingredients, t.user = u ∧ t.name = n ∧
      ∀ r ∈ (getOrCreateIngredients u ns rid db).recipes, r.id = rid → t.id ∈ r.ingredientIds := by
  induction ns generalizing db with
  | nil => cases hn
  | cons a l ih =>
      rw [getOrCreateIngredients_cons]
      rcases List.mem_cons.mp hn with rfl | hn'
      · obtain ⟨t, ht, hu, hnm, hid⟩ := getOrCreateIngredient_spec u n db
        refine ⟨t, ?_, hu, hnm, ?_⟩
        · refine getOrCreateIngredients_mono u rid l _ ?_
          rw [ingredientStep_ingredients]
          exact ht
        · refine getOrCreateIngredients_preserve u rid rid l _
            (fun iid r h => addIngredient_mem_of iid t.id r h) ?_
          intro r hr hrid
          have hrec : (ingredientStep u rid db n).recipes =
              ((getOrCreateIngredient u n db).2.mapRecipe rid
                (Recipe.addIngredient (getOrCreateIngredient u n db).1)).recipes := rfl
          have := mapRecipe_establish (Q := fun r => t.id ∈ r.ingredientIds)
            (getOrCreateIngredient u n db).2 rid
            (Recipe.addIngredient (getOrCreateIngredient u n db).1)
            (fun r => hid ▸ addIngredient_mem _ r)
          exact this r (hrec ▸ hr) hrid
      · exact ih _ hn'

/-! ### Ownership frame lemmas: the linking folds never change a recipe's
id or owner -/

theorem tagStep_idUser (u rid : Nat) (db : DB) (n : String) :
    (tagStep u rid db n).recipes.map (fun r => (r.id, r.user)) =
      db.recipes.map (fun r => (r.id, r.user)) := by
  rw [tagStep_recipes, List.map_map]
  refine List.map_congr_left (fun r _ => ?_)
  simp only [Function.comp_apply]
  split
  · exact Prod.ext (addTag_id _ r) (addTag_user _ r)
  · rfl

theorem ingredientStep_idUser (u rid : Nat) (db : DB) (n : String) :
    (ingredientStep u rid db n).recipes.map (fun r => (r.id, r.user)) =
      db.recipes.map (fun r => (r.id, r.user)) := by
  rw [ingredientStep_recipes, List.map_map]
  refine List.map_congr_left (fun r _ => ?_)
  simp only [Function.comp_apply]
  split
  · exact Prod.ext (addIngredient_id _ r) (addIngredient_user _ r)
  · rfl

theorem getOrCreateTags_idUser (u rid : Nat) (ns : List String) (db : DB) :
    (getOrCreateTags u ns rid db).recipes.map (fun r => (r.id, r.user)) =
      db.recipes.map (fun r => (r.id, r.user)) := by
  induction ns generalizing db with
  | nil => rfl
  | cons a l ih => rw [getOrCreateTags_cons, ih, tagStep_idUser]

theorem getOrCreateIngredients_idUser (u rid : Nat) (ns : List String) (db : DB) :
    (getOrCreateIngredients u ns rid db).recipes.map (fun r => (r.id, r.user)) =
      db.recipes.map (fun r => (r.id, r.user)) := by
  induction ns generalizing db with
  | nil => rfl
  | cons a l ih => rw [getOrCreateIngredients_cons, ih, ingredientStep_idUser]

/-- A recipe with a given id exists on one side of an (id, user)-column
equality exactly when it does on the other. -/
theorem exists_id_of_idUser_eq {l l' : List Recipe} {rid0 : Nat}
    (h : l'.map (fun r => (r.id, r.user)) = l.map (fun r => (r.id, r.user)))
    (hx : ∃ r ∈ l, r.id = rid0) : ∃ r ∈ l', r.id = rid0 := by
  obtain ⟨r, hr, hid⟩ := hx
  have hm : (r.id, r.user) ∈ l.map (fun r => (r.id, r.user)) :=
    List.mem_map_of_mem _ hr
  rw [← h] at hm
  obtain ⟨r', hr', heq⟩ := List.mem_map.mp hm
  refine ⟨r', hr', ?_⟩
  have := congrArg Prod.fst heq
  simpa [hid] using this

/-! ### Helpers about `tagRowsFor` / `ingredientRowsFor` -/

theorem mem_tagRowsFor {u : Nat} {n : String} {db : DB} {t : Tag} :
    t ∈ tagRowsFor u n db ↔ t ∈ db.tags ∧ t.user = u ∧ t.name = n := by
  simp [tagRowsFor, List.mem_filter, and_assoc]

theorem mem_ingredientRowsFor {u : Nat} {n : String} {db : DB} {t : Ingredient} :
    t ∈ ingredientRowsFor u n db ↔ t ∈ db.ingredients ∧ t.user = u ∧ t.name = n := by
  simp [ingredientRowsFor, List.mem_filter, and_assoc]

theorem tagRowsFor_congr {u : Nat} {n : String} {db db' : DB}
    (h : db.tags = db'.tags) : tagRowsFor u n db = tagRowsFor u n db' := by
  unfold tagRowsFor; rw [h]

theorem ingredientRowsFor_congr {u : Nat} {n : String} {db db' : DB}
    (h : db.ingredients = db'.ingredients) :
    ingredientRowsFor u n db = ingredientRowsFor u n db' := by
  unfold ingredientRowsFor; rw [h]

/-- Under natural-key uniqueness a linked matching row gives row count
exactly one. -/
theorem tagRowsFor_length_eq_one {db : DB} (hUN : db.TagsUN) {u : Nat} {n : String}
    {t : Tag} (ht : t ∈ db.tags) (hu : t.user = u) (hn : t.name = n) :
    (tagRowsFor u n db).length = 1 := by
  have hmem : t ∈ tagRowsFor u n db := mem_tagRowsFor.mpr ⟨ht, hu, hn⟩
  have h1 : 0 < (tagRowsFor u n db).length :=
    List.length_pos.mpr (List.ne_nil_of_mem hmem)
  exact Nat.le_antisymm (tagRowsFor_length_le_one hUN u n) h1

theorem ingredientRowsFor_length_eq_one {db : DB} (hUN : db.IngredientsUN)
    {u : Nat} {n : String} {t : Ingredient} (ht : t ∈ db.ingredients)
    (hu : t.user = u) (hn : t.name = n) :
    (ingredientRowsFor u n db).length = 1 := by
  have hmem : t ∈ ingredientRowsFor u n db := mem_ingredientRowsFor.mpr ⟨ht, hu, hn⟩
  have h1 : 0 < (ingredientRowsFor u n db).length :=
    List.length_pos.mpr (List.ne_nil_of_mem hmem)
  exact Nat.le_antisymm (ingredientRowsFor_length_le_one hUN u n) h1

/-! ### Core get-or-create results -/

/-- After `_get_or_create_tags`, each processed name is backed by exactly one
row of its natural key, some matching row is linked to the recipe, and every
matching row that pre-existed is the linked one. -/
theorem core_tags (u rid : Nat) (ns : List String) (db1 : DB) (hUN : db1.TagsUN)
    {n : String} (hn : n ∈ ns) :
    (tagRowsFor u n (getOrCreateTags u ns rid db1)).length = 1 ∧
    (∃ t ∈ (getOrCreateTags u ns rid db1).tags, t.user = u ∧ t.name = n ∧
      ∀ r ∈ (getOrCreateTags u ns rid db1).recipes, r.id = rid → t.id ∈ r.tagIds) ∧
    (∀ t ∈ db1.tags, t.user = u → t.name = n →
      ∀ r ∈ (getOrCreateTags u ns rid db1).recipes, r.id = rid → t.id ∈ r.tagIds) := by
  obtain ⟨t, ht, hu, hnm, hlink⟩ := getOrCreateTags_link u rid ns db1 hn
  have hUN2 := TagsUN_getOrCreateTags hUN u rid ns
  refine ⟨tagRowsFor_length_eq_one hUN2 ht hu hnm, ⟨t, ht, hu, hnm, hlink⟩, ?_⟩
  intro t0 ht0 hu0 hn0 r hr hrid
  have ht0' : t0 ∈ (getOrCreateTags u ns rid db1).tags :=
    getOrCreateTags_tags_mono u rid ns db1 ht0
  have heq : t0 = t :=
    eq_of_mem_of_length_le_one (tagRowsFor_length_le_one hUN2 u n)
      (mem_tagRowsFor.mpr ⟨ht0', hu0, hn0⟩) (mem_tagRowsFor.mpr ⟨ht, hu, hnm⟩)
  rw [heq]
  exact hlink r hr hrid

theorem core_ingredients (u rid : Nat) (ns : List String) (db1 : DB)
    (hUN : db1.IngredientsUN) {n : String} (hn : n ∈ ns) :
    (ingredientRowsFor u n (getOrCreateIngredients u ns rid db1)).length = 1 ∧
    (∃ t ∈ (getOrCreateIngredients u ns rid db1).ingredients, t.user = u ∧ t.name = n ∧
      ∀ r ∈ (getOrCreateIngredients u ns rid db1).recipes, r.id = rid →
        t.id ∈ r.ingredientIds) ∧
    (∀ t ∈ db1.ingredients, t.user = u → t.name = n →
      ∀ r ∈ (getOrCreateIngredients u ns rid db1).recipes, r.id = rid →
        t.id ∈ r.ingredientIds) := by
  obtain ⟨t, ht, hu, hnm, hlink⟩ := getOrCreateIngredients_link u rid ns db1 hn
  have hUN2 := IngredientsUN_getOrCreateIngredients hUN u rid ns
  refine ⟨ingredientRowsFor_length_eq_one hUN2 ht hu hnm, ⟨t, ht, hu, hnm, hlink⟩, ?_⟩
  intro t0 ht0 hu0 hn0 r hr hrid
  have ht0' : t0 ∈ (getOrCreateIngredients u ns rid db1).ingredients :=
    getOrCreateIngredients_mono u rid ns db1 ht0
  have heq : t0 = t :=
    eq_of_mem_of_length_le_one (ingredientRowsFor_length_le_one hUN2 u n)
      (mem_ingredientRowsFor.mpr ⟨ht0', hu0, hn0⟩)
      (mem_ingredientRowsFor.mpr ⟨ht, hu, hnm⟩)
  rw [heq]
  exact hlink r hr hrid

/-- After `_get_or_create_tags`, a recipe with the target id carries exactly
one link whose row has the processed natural key, however often the name
occurred in the payload list. -/
theorem core_tags_count (u rid : Nat) (ns : List String) (db1 : DB) (hUN : db1.TagsUN)
    (hnd : ∀ r ∈ db1.recipes, r.id = rid → r.tagIds.Nodup) {n : String} (hn : n ∈ ns) :
    ∀ r ∈ (getOrCreateTags u ns rid db1).recipes, r.id = rid →
      (r.tagIds.filter (fun i =>
        (getOrCreateTags u ns rid db1).tags.any
          (fun t => t.id == i && t.user == u && t.name == n))).length = 1 := by
  obtain ⟨t, ht, hu, hnm, hlink⟩ := getOrCreateTags_link u rid ns db1 hn
  have hUN2 := TagsUN_getOrCreateTags hUN u rid ns
  have hnd2 : ∀ r ∈ (getOrCreateTags u ns rid db1).recipes, r.id = rid → r.tagIds.Nodup :=
    getOrCreateTags_preserve u rid rid ns db1 (fun tid r h => addTag_nodup tid r h) hnd
  intro r hr hrid
  have hpred : ∀ i : Nat,
      ((getOrCreateTags u ns rid db1).tags.any
        (fun t' => t'.id == i && t'.user == u && t'.name == n)) = (i == t.id) := by
    intro i
    by_cases hcase : i = t.id
    · subst hcase
      have h1 : ((getOrCreateTags u ns rid db1).tags.any
          (fun t' => t'.id == t.id && t'.user == u && t'.name == n)) = true :=
        List.any_eq_true.mpr ⟨t, ht, by simp [hu, hnm]⟩
      simp [h1]
    · have h0 : ((getOrCreateTags u ns rid db1).tags.any
          (fun t' => t'.id == i && t'.user == u && t'.name == n)) = false := by
        rw [List.any_eq_false]
        intro t' ht'
        simp only [Bool.and_eq_true, beq_iff_eq, not_and]
        intro h12 hn'
        obtain ⟨hid', hu'⟩ := h12
        have : t' = t :=
          eq_of_mem_of_length_le_one (tagRowsFor_length_le_one hUN2 u n)
            (mem_tagRowsFor.mpr ⟨ht', hu', hn'⟩) (mem_tagRowsFor.mpr ⟨ht, hu, hnm⟩)
        exact hcase (hid' ▸ congrArg Tag.id this)
      simp [h0, hcase]
  rw [List.filter_congr (fun i _ => hpred i)]
  rw [show (r.tagIds.filter (fun i => i == t.id)).length = r.tagIds.count t.id from
    (List.countP_eq_length_filter _ _).symm]
  exact List.count_eq_one_of_mem (hnd2 r hr hrid) (hlink r hr hrid)

theorem core_ingredients_count (u rid : Nat) (ns : List String) (db1 : DB)
    (hUN : db1.IngredientsUN)
    (hnd : ∀ r ∈ db1.recipes, r.id = rid → r.ingredientIds.Nodup) {n : String}
    (hn : n ∈ ns) :
    ∀ r ∈ (getOrCreateIngredients u ns rid db1).recipes, r.id = rid →
      (r.ingredientIds.filter (fun i =>
        (getOrCreateIngredients u ns rid db1).ingredients.any
          (fun t => t.id == i && t.user == u && t.name == n))).length = 1 := by
  obtain ⟨t, ht, hu, hnm, hlink⟩ := getOrCreateIngredients_link u rid ns db1 hn
  have hUN2 := IngredientsUN_getOrCreateIngredients hUN u rid ns
  have hnd2 : ∀ r ∈ (getOrCreateIngredients u ns rid db1).recipes, r.id = rid →
      r.ingredientIds.Nodup :=
    getOrCreateIngredients_preserve u rid rid ns db1
      (fun iid r h => addIngredient_nodup iid r h) hnd
  intro r hr hrid
  have hpred : ∀ i : Nat,
      ((getOrCreateIngredients u ns rid db1).ingredients.any
        (fun t' => t'.id == i && t'.user == u && t'.name == n)) = (i == t.id) := by
    intro i
    by_cases hcase : i = t.id
    · subst hcase
      have h1 : ((getOrCreateIngredients u ns rid db1).ingredients.any
          (fun t' => t'.id == t.id && t'.user == u && t'.name == n)) = true :=
        List.any_eq_true.mpr ⟨t, ht, by simp [hu, hnm]⟩
      simp [h1]
    · have h0 : ((getOrCreateIngredients u ns rid db1).ingredients.any
          (fun t' => t'.id == i && t'.user == u && t'.name == n)) = false := by
        rw [List.any_eq_false]
        intro t' ht'
        simp only [Bool.and_eq_true, beq_iff_eq, not_and]
        intro h12 hn'
        obtain ⟨hid', hu'⟩ := h12
        have : t' = t :=
          eq_of_mem_of_length_le_one (ingredientRowsFor_length_le_one hUN2 u n)
            (mem_ingredientRowsFor.mpr ⟨ht', hu', hn'⟩)
            (mem_ingredientRowsFor.mpr ⟨ht, hu, hnm⟩)
        exact hcase (hid' ▸ congrArg Ingredient.id this)
      simp [h0, hcase]
  rw [List.filter_congr (fun i _ => hpred i)]
  rw [show (r.ingredientIds.filter (fun i => i == t.id)).length = r.ingredientIds.count t.id
    from (List.countP_eq_length_filter _ _).symm]
  exact List.count_eq_one_of_mem (hnd2 r hr hrid) (hlink r hr hrid)

/-! ### Unfolding lemmas for the serializer's `create` and `update` -/

theorem create_fst (auth : Nat) (p : CreatePayload) (db : DB) :
    (RecipeSerializer.create auth p db).1 =
      { id := db.nextRecipeId, user := auth, title := p.title,
        time_minutes := p.time_minutes, price := p.price, link := p.link,
        description := p.description, image := none,
        tagIds := [], ingredientIds := [] } := rfl

theorem create_snd (auth : Nat) (p : CreatePayload) (db : DB) :
    (RecipeSerializer.create auth p db).2 =
      getOrCreateIngredients auth (p.ingredient.getD []) db.nextRecipeId
        (getOrCreateTags auth (p.tag.getD []) db.nextRecipeId
          { db with
              recipes := db.recipes ++ [(RecipeSerializer.create auth p db).1],
              nextRecipeId := db.nextRecipeId + 1 }) := rfl

theorem update_eq_some (auth rid : Nat) (p : UpdatePayload) (db : DB)
    {ts : List String} (h : p.tag = some ts) :
    RecipeSerializer.update auth rid p db =
      (getOrCreateIngredients auth (p.ingredient.getD []) rid
        ((getOrCreateTags auth ts rid (db.mapRecipe rid Recipe.clearTags)).mapRecipe rid
          Recipe.clearIngredients)).mapRecipe rid (applyScalars p) := by
  simp only [RecipeSerializer.update, h]

theorem update_eq_none (auth rid : Nat) (p : UpdatePayload) (db : DB)
    (h : p.tag = none) :
    RecipeSerializer.update auth rid p db =
      (getOrCreateIngredients auth (p.ingredient.getD []) rid
        (db.mapRecipe rid Recipe.clearIngredients)).mapRecipe rid (applyScalars p) := by
  simp only [RecipeSerializer.update, h]

theorem update_tags_eq_some (auth rid : Nat) (p : UpdatePayload) (db : DB)
    {ts : List String} (h : p.tag = some ts) :
    (RecipeSerializer.update auth rid p db).tags =
      (getOrCreateTags auth ts rid (db.mapRecipe rid Recipe.clearTags)).tags := by
  rw [update_eq_some auth rid p db h, mapRecipe_tags, getOrCreateIngredients_tags,
    mapRecipe_tags]

/-- The whole `update` never changes any recipe's id or owner. -/
theorem update_idUser (auth rid : Nat) (p : UpdatePayload) (db : DB) :
    (RecipeSerializer.update auth rid p db).recipes.map (fun r => (r.id, r.user)) =
      db.recipes.map (fun r => (r.id, r.user)) := by
  rcases htag : p.tag with _ | ts
  · rw [update_eq_none auth rid p db htag,
      mapRecipe_idUser _ rid (applyScalars p) (fun r => ⟨rfl, rfl⟩),
      getOrCreateIngredients_idUser,
      mapRecipe_idUser _ rid Recipe.clearIngredients (fun r => ⟨rfl, rfl⟩)]
  · rw [update_eq_some auth rid p db htag,
      mapRecipe_idUser _ rid (applyScalars p) (fun r => ⟨rfl, rfl⟩),
      getOrCreateIngredients_idUser,
      mapRecipe_idUser _ rid Recipe.clearIngredients (fun r => ⟨rfl, rfl⟩),
      getOrCreateTags_idUser,
      mapRecipe_idUser _ rid Recipe.clearTags (fun r => ⟨rfl, rfl⟩)]

/-- Updating with `tag: []` leaves the recipe with no tag links and the tag
table untouched. -/
theorem update_tag_nil (auth rid : Nat) (p : UpdatePayload) (db : DB)
    (h : p.tag = some []) :
    (∀ r ∈ (RecipeSerializer.update auth rid p db).recipes, r.id = rid → r.tagIds = []) ∧
    (RecipeSerializer.update auth rid p db).tags = db.tags := by
  rw [update_eq_some auth rid p db h, getOrCreateTags_nil]
  constructor
  · have h0 : ∀ r ∈ (db.mapRecipe rid Recipe.clearTags).recipes, r.id = rid →
        r.tagIds = [] :=
      mapRecipe_establish db rid Recipe.clearTags (fun r => rfl)
    have h1 : ∀ r ∈ ((db.mapRecipe rid Recipe.clearTags).mapRecipe rid
        Recipe.clearIngredients).recipes, r.id = rid → r.tagIds = [] :=
      mapRecipe_preserve _ rid rid _ (fun r => rfl) (fun r hq => hq) h0
    have h2 : ∀ r ∈ (getOrCreateIngredients auth (p.ingredient.getD []) rid
        ((db.mapRecipe rid Recipe.clearTags).mapRecipe rid
          Recipe.clearIngredients)).recipes, r.id = rid → r.tagIds = [] :=
      getOrCreateIngredients_preserve auth rid rid _ _
        (fun iid r hq => by rw [addIngredient_tagIds]; exact hq) h1
    exact mapRecipe_preserve _ rid rid _ (fun r => rfl) (fun r hq => hq) h2
  · rw [mapRecipe_tags, getOrCreateIngredients_tags, mapRecipe_tags, mapRecipe_tags]

/-- `core_tags`, transported through the subsequent ingredient-linking fold
(whose steps touch neither the tag table nor any recipe's tag links). -/
theorem create_tags_core (u rid : Nat) (tns ins : List String) (db1 : DB)
    (hUN : db1.TagsUN) {n : String} (hn : n ∈ tns) :
    (tagRowsFor u n
        (getOrCreateIngredients u ins rid (getOrCreateTags u tns rid db1))).length = 1 ∧
    (∃ t ∈ (getOrCreateIngredients u ins rid (getOrCreateTags u tns rid db1)).tags,
      t.user = u ∧ t.name = n ∧
      ∀ r ∈ (getOrCreateIngredients u ins rid (getOrCreateTags u tns rid db1)).recipes,
        r.id = rid → t.id ∈ r.tagIds) ∧
    (∀ t ∈ db1.tags, t.user = u → t.name = n →
      ∀ r ∈ (getOrCreateIngredients u ins rid (getOrCreateTags u tns rid db1)).recipes,
        r.id = rid → t.id ∈ r.tagIds) := by
  obtain ⟨hlen, ⟨t, ht, hu, hnm, hlink⟩, hreuse⟩ := core_tags u rid tns db1 hUN hn
  refine ⟨?_, ⟨t, ?_, hu, hnm, ?_⟩, ?_⟩
  · rw [tagRowsFor_congr (getOrCreateIngredients_tags u rid ins _)]
    exact hlen
  · rw [getOrCreateIngredients_tags]
    exact ht
  · exact getOrCreateIngredients_preserve u rid rid ins _
      (fun iid r hq => (addIngredient_tagIds iid r).symm ▸ hq) hlink
  · intro t0 ht0 hu0 hn0
    exact getOrCreateIngredients_preserve u rid rid ins _
      (fun iid r hq => (addIngredient_tagIds iid r).symm ▸ hq)
      (hreuse t0 ht0 hu0 hn0)

/-- The tag-link count of `core_tags_count`, transported through the
subsequent ingredient-linking fold. -/
theorem create_tags_count_core (u rid : Nat) (tns ins : List String) (db1 : DB)
    (hUN : db1.TagsUN)
    (hnd : ∀ r ∈ db1.recipes, r.id = rid → r.tagIds.Nodup) {n : String} (hn : n ∈ tns) :
    ∀ r ∈ (getOrCreateIngredients u ins rid (getOrCreateTags u tns rid db1)).recipes,
      r.id = rid →
      (r.tagIds.filter (fun i =>
        (getOrCreateIngredients u ins rid (getOrCreateTags u tns rid db1)).tags.any
          (fun t => t.id == i && t.user == u && t.name == n))).length = 1 := by
  simp only [getOrCreateIngredients_tags]
  exact getOrCreateIngredients_preserve u rid rid ins _
    (fun iid r hq => (addIngredient_tagIds iid r).symm ▸ hq)
    (core_tags_count u rid tns db1 hUN hnd hn)

/-! ## The claims -/

/-- C9: every request to a listed endpoint made without (or with invalid)
credentials is answered 401 with the store untouched — the rejection happens
before the dispatched view reads or writes any entity. -/
theorem unauthenticated_rejected (req : Request) (db : DB) :
    handle none req db = (401, db) := rfl

/-- C8: a recipe create attaches the requester as owner whatever the payload
says (the wire `user` key is dropped by validation and cannot influence the
result), and a recipe update never changes any recipe's id or owner (the
`user` key is likewise dropped). -/
theorem owner_assignment (auth : Nat) (raw : RawCreatePayload) (db : DB)
    (rid : Nat) (rawU : RawUpdatePayload) :
    (createRecipeEp auth raw db).2.1.user = auth ∧
    ((createRecipeEp auth raw db).2.2.recipes.map (fun r => (r.id, r.user)) =
      db.recipes.map (fun r => (r.id, r.user)) ++
        [((createRecipeEp auth raw db).2.1.id, auth)]) ∧
    (∀ u1 u2 : Option Nat,
      createRecipeEp auth { raw with user := u1 } db =
        createRecipeEp auth { raw with user := u2 } db) ∧
    ((updateRecipeEp auth rid rawU db).2.recipes.map (fun r => (r.id, r.user)) =
      db.recipes.map (fun r => (r.id, r.user))) ∧
    (∀ u1 u2 : Option Nat,
      updateRecipeEp auth rid { rawU with user := u1 } db =
        updateRecipeEp auth rid { rawU with user := u2 } db) := by
  refine ⟨rfl, ?_, fun u1 u2 => rfl, ?_, fun u1 u2 => rfl⟩
  · rw [show (createRecipeEp auth raw db).2.2 =
        (RecipeSerializer.create auth (validateCreate raw) db).2 from rfl,
      create_snd, getOrCreateIngredients_idUser, getOrCreateTags_idUser]
    simp only [List.map_append, List.map_cons, List.map_nil, List.append_cancel_left_eq,
      List.cons.injEq, and_true, Prod.mk.injEq]
    exact ⟨rfl, rfl⟩
  · unfold updateRecipeEp
    rcases h : retrieveRecipe auth rid db with _ | r
    · rfl
    · exact update_idUser auth rid (validateUpdate rawU) db

/-- C5: patching a recipe with `tag: []` removes all of its tag links while
the tag table itself is left exactly as it was — no tag row is deleted by
being unlinked. -/
theorem clear_tags_on_update (auth rid : Nat) (p : UpdatePayload) (db : DB)
    (h : p.tag = some []) :
    (∀ r ∈ (RecipeSerializer.update auth rid p db).recipes, r.id = rid →
      r.tagIds = []) ∧
    (RecipeSerializer.update auth rid p db).tags = db.tags :=
  update_tag_nil auth rid p db h

/-- Witness for C5 at a concrete store: the patched recipe ends with no tag
links while the `Dessert` tag row survives. -/
theorem clear_tags_on_update_witness :
    (∀ r ∈ (RecipeSerializer.update 1 1 updC5 dbC5).recipes, r.id = 1 →
      r.tagIds = []) ∧
    (RecipeSerializer.update 1 1 updC5 dbC5).tags = dbC5.tags :=
  clear_tags_on_update 1 1 updC5 dbC5 rfl

/-- C1: the claim's ingredient half fails on the code.  In
`RecipeSerializer.update` the `tag` pop defaults to `None` but the
`ingredient` pop defaults to `[]`, so an update payload carrying no
`ingredient` key still clears all ingredient links: on a recipe linked to
tag 3 and ingredient 5, a title-only PATCH keeps the tag link but wipes the
ingredient link, where the claim promises it untouched. -/
theorem update_absent_ingredient_key_clears_links :
    (RecipeSerializer.update 7 1 updC1 dbC1).recipes.map
      (fun r => (r.tagIds, r.ingredientIds)) = [([3], [])] := by rfl

/-- C3: on a recipe owned by the requester, the image-upload endpoint
answers 400 with the store unchanged when the file is missing or does not
decode as an image, and on a valid file answers 200 carrying the recipe id
and image reference, with the image stored on the recipe. -/
theorem upload_image_contract (u rid : Nat) (db : DB) (r : Recipe)
    (hown : retrieveRecipe u rid db = some r) :
    uploadImageEp u rid none db = (400, none, db) ∧
    (∀ f : ImageFile, f.isValidImage = false →
      uploadImageEp u rid (some f) db = (400, none, db)) ∧
    (∀ f : ImageFile, f.isValidImage = true →
      (uploadImageEp u rid (some f) db).1 = 200 ∧
      (uploadImageEp u rid (some f) db).2.1 = some (rid, f.filename) ∧
      ∀ r' ∈ (uploadImageEp u rid (some f) db).2.2.recipes, r'.id = rid →
        r'.image = some f.filename) := by
  refine ⟨?_, ?_, ?_⟩
  · simp [uploadImageEp, hown]
  · intro f hf
    simp [uploadImageEp, hown, hf]
  · intro f hf
    refine ⟨by simp [uploadImageEp, hown, hf], by simp [uploadImageEp, hown, hf], ?_⟩
    intro r' hr' hid
    have hr'' : r' ∈ (db.mapRecipe rid
        (fun r0 => { r0 with image := some f.filename })).recipes := by
      revert hr'
      simp [uploadImageEp, hown, hf]
    have hall : ∀ r0 ∈ (db.mapRecipe rid
        (fun r1 => { r1 with image := some f.filename })).recipes,
        r0.id = rid → r0.image = some f.filename :=
      mapRecipe_establish db rid _ (fun r1 => rfl)
    exact hall r' hr'' hid

/-- Witness for C3: the three upload outcomes at the concrete store. -/
theorem upload_image_contract_witness :
    uploadImageEp 1 1 none dbC3 = (400, none, dbC3) ∧
    (∀ f : ImageFile, f.isValidImage = false →
      uploadImageEp 1 1 (some f) dbC3 = (400, none, dbC3)) ∧
    (∀ f : ImageFile, f.isValidImage = true →
      (uploadImageEp 1 1 (some f) dbC3).1 = 200 ∧
      (uploadImageEp 1 1 (some f) dbC3).2.1 = some (1, f.filename) ∧
      ∀ r' ∈ (uploadImageEp 1 1 (some f) dbC3).2.2.recipes, r'.id = 1 →
        r'.image = some f.filename) :=
  upload_image_contract 1 1 dbC3
    { id := 1, user := 1, title := "t", time_minutes := 1, price := 1,
      link := "", description := "", image := none, tagIds := [],
      ingredientIds := [] } rfl

/-- C6: with `assigned_only=1` the tag and ingredient lists contain exactly
the requester's rows linked to at least one of the requester's recipes,
each at most once. -/
theorem assigned_only_filter (u : Nat) (db : DB) :
    (∀ t : Tag, t ∈ listTags u true db ↔
      t ∈ db.tags ∧ t.user = u ∧ ∃ r ∈ db.recipes, r.user = u ∧ t.id ∈ r.tagIds) ∧
    (∀ t : Tag, (listTags u true db).count t ≤ 1) ∧
    (∀ i : Ingredient, i ∈ listIngredients u true db ↔
      i ∈ db.ingredients ∧ i.user = u ∧
        ∃ r ∈ db.recipes, r.user = u ∧ i.id ∈ r.ingredientIds) ∧
    (∀ i : Ingredient, (listIngredients u true db).count i ≤ 1) := by
  refine ⟨fun t => ?_, fun t => ?_, fun i => ?_, fun i => ?_⟩
  · simp only [listTags, tagQueryset, tagAssigned, List.mem_dedup, List.mem_filter,
      List.any_eq_true, Bool.and_eq_true, beq_iff_eq, List.elem_iff, if_true,
      decide_eq_true_eq, and_assoc]
  · exact List.nodup_iff_count_le_one.mp (List.nodup_dedup _) t
  · simp only [listIngredients, ingredientQueryset, ingredientAssigned, List.mem_dedup,
      List.mem_filter, List.any_eq_true, Bool.and_eq_true, beq_iff_eq, List.elem_iff,
      if_true, decide_eq_true_eq, and_assoc]
  · exact List.nodup_iff_count_le_one.mp (List.nodup_dedup _) i

/-- C7: a recipe list filtered by `tags=<ids>` (resp. `ingredients=<ids>`)
is the union of the requester's recipes linked to any of the given ids, each
appearing at most once, and recipes linked to none of the ids are
excluded. -/
theorem recipe_id_filters (u : Nat) (db : DB) (ids : List Nat) :
    (∀ r : Recipe, r ∈ listRecipes u (some ids) none db ↔
      r ∈ db.recipes ∧ r.user = u ∧ ∃ i ∈ ids, i ∈ r.tagIds) ∧
    (∀ r : Recipe, (listRecipes u (some ids) none db).count r ≤ 1) ∧
    (∀ r : Recipe, r ∈ listRecipes u none (some ids) db ↔
      r ∈ db.recipes ∧ r.user = u ∧ ∃ i ∈ ids, i ∈ r.ingredientIds) ∧
    (∀ r : Recipe, (listRecipes u none (some ids) db).count r ≤ 1) := by
  refine ⟨fun r => ?_, fun r => ?_, fun r => ?_, fun r => ?_⟩
  · simp only [listRecipes, recipeQueryset, List.mem_dedup, List.mem_filter,
      List.any_eq_true, Bool.and_eq_true, beq_iff_eq, List.elem_iff,
      decide_eq_true_eq, and_assoc]
  · exact List.nodup_iff_count_le_one.mp (List.nodup_dedup _) r
  · simp only [listRecipes, recipeQueryset, List.mem_dedup, List.mem_filter,
      List.any_eq_true, Bool.and_eq_true, beq_iff_eq, List.elem_iff,
      decide_eq_true_eq, and_assoc]
  · exact List.nodup_iff_count_le_one.mp (List.nodup_dedup _) r

/-! ### Owner-scoping helpers for C2 -/

theorem user_of_mem_listTags {t : Tag} {u : Nat} {ao : Bool} {db : DB}
    (h : t ∈ listTags u ao db) : t.user = u := by
  cases ao <;>
    simp only [listTags, tagQueryset, List.mem_dedup, List.mem_filter, Bool.and_eq_true,
      beq_iff_eq, Bool.false_eq_true, Bool.true_eq_false, ite_true, ite_false,
      if_true, if_false] at h
  · exact h.2
  · exact h.1.2

theorem user_of_mem_listIngredients {i : Ingredient} {u : Nat} {ao : Bool} {db : DB}
    (h : i ∈ listIngredients u ao db) : i.user = u := by
  cases ao <;>
    simp only [listIngredients, ingredientQueryset, List.mem_dedup, List.mem_filter,
      Bool.and_eq_true, beq_iff_eq, Bool.false_eq_true, Bool.true_eq_false, ite_true,
      ite_false, if_true, if_false] at h
  · exact h.2
  · exact h.1.2

theorem user_of_mem_listRecipes {r : Recipe} {u : Nat} {tf igf : Option (List Nat)}
    {db : DB} (h : r ∈ listRecipes u tf igf db) : r.user = u := by
  rcases tf with _ | ts <;> rcases igf with _ | is <;>
    simp only [listRecipes, recipeQueryset, List.mem_dedup, List.mem_filter,
      beq_iff_eq] at h
  · exact h.2
  · exact h.1.2
  · exact h.1.2
  · exact h.1.1.2

theorem retrieveTag_none_of_other {db : DB} (hids : (db.tags.map Tag.id).Nodup)
    {a : Nat} {t : Tag} (ht : t ∈ db.tags) (hne : t.user ≠ a) :
    retrieveTag a t.id db = none := by
  rw [retrieveTag, List.find?_eq_none]
  intro x hx
  rw [tagQueryset, List.mem_filter] at hx
  obtain ⟨hxm, hxu⟩ := hx
  simp only [beq_iff_eq] at hxu ⊢
  intro hxid
  have hxt : x = t := List.inj_on_of_nodup_map hids hxm ht hxid
  exact hne (hxt ▸ hxu)

theorem retrieveIngredient_none_of_other {db : DB}
    (hids : (db.ingredients.map Ingredient.id).Nodup)
    {a : Nat} {i : Ingredient} (hi : i ∈ db.ingredients) (hne : i.user ≠ a) :
    retrieveIngredient a i.id db = none := by
  rw [retrieveIngredient, List.find?_eq_none]
  intro x hx
  rw [ingredientQueryset, List.mem_filter] at hx
  obtain ⟨hxm, hxu⟩ := hx
  simp only [beq_iff_eq] at hxu ⊢
  intro hxid
  have hxt : x = i := List.inj_on_of_nodup_map hids hxm hi hxid
  exact hne (hxt ▸ hxu)

theorem retrieveRecipe_none_of_other {db : DB}
    (hids : (db.recipes.map Recipe.id).Nodup)
    {a : Nat} {r : Recipe} (hr : r ∈ db.recipes) (hne : r.user ≠ a) :
    retrieveRecipe a r.id db = none := by
  rw [retrieveRecipe, List.find?_eq_none]
  intro x hx
  rw [recipeQueryset, List.mem_filter] at hx
  obtain ⟨hxm, hxu⟩ := hx
  simp only [beq_iff_eq] at hxu ⊢
  intro hxid
  have hxt : x = r := List.inj_on_of_nodup_map hids hxm hr hxid
  exact hne (hxt ▸ hxu)

/-- C2: entities owned by one user are invisible to every other user: they
never appear in the other user's list responses, and the other user's
retrieve, update and delete requests addressed to them answer 404 (never a
permission error) with the store untouched. -/
theorem cross_user_isolation (a b : Nat) (db : DB) (hab : a ≠ b)
    (hids : db.IdsNodup) :
    (∀ t ∈ db.tags, t.user = b →
      (∀ ao : Bool, t ∉ listTags a ao db) ∧
      retrieveTag a t.id db = none ∧
      (∀ nm : String, updateTagEp a t.id nm db = (404, db)) ∧
      deleteTagEp a t.id db = (404, db)) ∧
    (∀ i ∈ db.ingredients, i.user = b →
      (∀ ao : Bool, i ∉ listIngredients a ao db) ∧
      retrieveIngredient a i.id db = none ∧
      (∀ nm : String, updateIngredientEp a i.id nm db = (404, db)) ∧
      deleteIngredientEp a i.id db = (404, db)) ∧
    (∀ r ∈ db.recipes, r.user = b →
      (∀ tf igf : Option (List Nat), r ∉ listRecipes a tf igf db) ∧
      retrieveRecipe a r.id db = none ∧
      (∀ raw : RawUpdatePayload, updateRecipeEp a r.id raw db = (404, db)) ∧
      deleteRecipeEp a r.id db = (404, db)) := by
  refine ⟨fun t ht htb => ?_, fun i hi hib => ?_, fun r hr hrb => ?_⟩
  · have hne : t.user ≠ a := by rw [htb]; exact fun h => hab h.symm
    have hret := retrieveTag_none_of_other hids.1 ht hne
    refine ⟨fun ao hmem => hne (user_of_mem_listTags hmem), hret, fun nm => ?_, ?_⟩
    · simp only [updateTagEp, hret]
    · simp only [deleteTagEp, hret]
  · have hne : i.user ≠ a := by rw [hib]; exact fun h => hab h.symm
    have hret := retrieveIngredient_none_of_other hids.2.1 hi hne
    refine ⟨fun ao hmem => hne (user_of_mem_listIngredients hmem), hret, fun nm => ?_, ?_⟩
    · simp only [updateIngredientEp, hret]
    · simp only [deleteIngredientEp, hret]
  · have hne : r.user ≠ a := by rw [hrb]; exact fun h => hab h.symm
    have hret := retrieveRecipe_none_of_other hids.2.2 hr hne
    refine ⟨fun tf igf hmem => hne (user_of_mem_listRecipes hmem), hret, fun raw => ?_, ?_⟩
    · simp only [updateRecipeEp, hret]
    · simp only [deleteRecipeEp, hret]

/-- Witness for C2: user 1 cannot see or touch user 2's tag, ingredient or
recipe in the concrete store. -/
theorem cross_user_isolation_witness :
    ((∀ ao : Bool, (⟨10, 2, "Rice"⟩ : Tag) ∉ listTags 1 ao dbC2) ∧
      retrieveTag 1 10 dbC2 = none ∧
      (∀ nm : String, updateTagEp 1 10 nm dbC2 = (404, dbC2)) ∧
      deleteTagEp 1 10 dbC2 = (404, dbC2)) ∧
    ((∀ ao : Bool, (⟨20, 2, "Noodles"⟩ : Ingredient) ∉ listIngredients 1 ao dbC2) ∧
      retrieveIngredient 1 20 dbC2 = none ∧
      (∀ nm : String, updateIngredientEp 1 20 nm dbC2 = (404, dbC2)) ∧
      deleteIngredientEp 1 20 dbC2 = (404, dbC2)) := by
  have h := cross_user_isolation 1 2 dbC2 (by decide) (by decide)
  exact ⟨h.1 ⟨10, 2, "Rice"⟩ (by decide) rfl, h.2.1 ⟨20, 2, "Noodles"⟩ (by decide) rfl⟩

/-- C4: creating a recipe with tag names looks each name up by
(name, user), reuses the existing row or creates one (never a duplicate:
exactly one row per name afterwards), and links every resulting row — in
particular every pre-existing matching row — to the new recipe. -/
theorem create_reuses_and_links_tags (auth : Nat) (p : CreatePayload) (db : DB)
    (hUN : db.TagsUN) :
    ∀ n ∈ p.tag.getD [],
      (tagRowsFor auth n (RecipeSerializer.create auth p db).2).length = 1 ∧
      (∃ t ∈ (RecipeSerializer.create auth p db).2.tags, t.user = auth ∧ t.name = n ∧
        ∀ r ∈ (RecipeSerializer.create auth p db).2.recipes,
          r.id = (RecipeSerializer.create auth p db).1.id → t.id ∈ r.tagIds) ∧
      (∀ t ∈ db.tags, t.user = auth → t.name = n →
        ∀ r ∈ (RecipeSerializer.create auth p db).2.recipes,
          r.id = (RecipeSerializer.create auth p db).1.id → t.id ∈ r.tagIds) := by
  intro n hn
  exact create_tags_core auth db.nextRecipeId (p.tag.getD []) (p.ingredient.getD [])
    { db with recipes := db.recipes ++ [(RecipeSerializer.create auth p db).1],
              nextRecipeId := db.nextRecipeId + 1 } hUN hn

/-- Witness for C4 at the spec's example: the reused `Indian` row, plus the
concrete outcome — exactly the two rows `Indian` (old) and `Breakfast`
(new) in the table, and the new recipe linked to both. -/
theorem create_reuses_and_links_tags_witness :
    ((tagRowsFor 1 "Indian" (RecipeSerializer.create 1 pC4 dbC4).2).length = 1 ∧
      (∃ t ∈ (RecipeSerializer.create 1 pC4 dbC4).2.tags, t.user = 1 ∧ t.name = "Indian" ∧
        ∀ r ∈ (RecipeSerializer.create 1 pC4 dbC4).2.recipes,
          r.id = (RecipeSerializer.create 1 pC4 dbC4).1.id → t.id ∈ r.tagIds) ∧
      (∀ t ∈ dbC4.tags, t.user = 1 → t.name = "Indian" →
        ∀ r ∈ (RecipeSerializer.create 1 pC4 dbC4).2.recipes,
          r.id = (RecipeSerializer.create 1 pC4 dbC4).1.id → t.id ∈ r.tagIds)) ∧
    (RecipeSerializer.create 1 pC4 dbC4).2.tags =
      [⟨1, 1, "Indian"⟩, ⟨2, 1, "Breakfast"⟩] ∧
    (RecipeSerializer.create 1 pC4 dbC4).2.recipes.map Recipe.tagIds = [[1, 2]] :=
  ⟨create_reuses_and_links_tags 1 pC4 dbC4 (by decide) "Indian" (by decide),
    by decide, by decide⟩

/-- Row and link counts for a tag name processed by an update whose payload
carries a `tag` list. -/
theorem update_tag_counts (auth rid : Nat) (pu : UpdatePayload) (db : DB)
    (hT : db.TagsUN) {ts : List String} (hts : pu.tag = some ts) {n : String}
    (hn : n ∈ ts) :
    (tagRowsFor auth n (RecipeSerializer.update auth rid pu db)).length = 1 ∧
    ∀ r ∈ (RecipeSerializer.update auth rid pu db).recipes, r.id = rid →
      (r.tagIds.filter (fun i =>
        (RecipeSerializer.update auth rid pu db).tags.any
          (fun t => t.id == i && t.user == auth && t.name == n))).length = 1 := by
  constructor
  · rw [tagRowsFor_congr (update_tags_eq_some auth rid pu db hts)]
    exact (core_tags auth rid ts (db.mapRecipe rid Recipe.clearTags) hT hn).1
  · rw [update_eq_some auth rid pu db hts]
    simp only [mapRecipe_tags, getOrCreateIngredients_tags]
    refine mapRecipe_preserve _ rid rid _ (fun r => rfl) (fun r hq => hq) ?_
    refine getOrCreateIngredients_preserve auth rid rid _ _
      (fun iid r hq => (addIngredient_tagIds iid r).symm ▸ hq) ?_
    refine mapRecipe_preserve _ rid rid _ (fun r => rfl) (fun r hq => hq) ?_
    exact core_tags_count auth rid ts (db.mapRecipe rid Recipe.clearTags) hT
      (mapRecipe_establish db rid Recipe.clearTags (fun r => List.nodup_nil)) hn

/-- Row and link counts for an ingredient name processed by an update (the
`ingredient` list is always processed, defaulting to empty). -/
theorem update_ingredient_counts (auth rid : Nat) (pu : UpdatePayload) (db : DB)
    (hI : db.IngredientsUN) {n : String} (hn : n ∈ pu.ingredient.getD []) :
    (ingredientRowsFor auth n (RecipeSerializer.update auth rid pu db)).length = 1 ∧
    ∀ r ∈ (RecipeSerializer.update auth rid pu db).recipes, r.id = rid →
      (r.ingredientIds.filter (fun i =>
        (RecipeSerializer.update auth rid pu db).ingredients.any
          (fun t => t.id == i && t.user == auth && t.name == n))).length = 1 := by
  rcases hts : pu.tag with _ | ts
  · have hIX : (db.mapRecipe rid Recipe.clearIngredients).IngredientsUN := hI
    constructor
    · rw [update_eq_none auth rid pu db hts,
        ingredientRowsFor_congr (mapRecipe_ingredients _ _ _)]
      exact (core_ingredients auth rid _ _ hIX hn).1
    · rw [update_eq_none auth rid pu db hts]
      simp only [mapRecipe_ingredients]
      refine mapRecipe_preserve _ rid rid _ (fun r => rfl) (fun r hq => hq) ?_
      exact core_ingredients_count auth rid _ _ hIX
        (mapRecipe_establish db rid Recipe.clearIngredients (fun r => List.nodup_nil)) hn
  · have hIX : ((getOrCreateTags auth ts rid (db.mapRecipe rid
        Recipe.clearTags)).mapRecipe rid Recipe.clearIngredients).IngredientsUN := by
      unfold DB.IngredientsUN
      rw [mapRecipe_ingredients, getOrCreateTags_ingredients]
      exact hI
    constructor
    · rw [update_eq_some auth rid pu db hts,
        ingredientRowsFor_congr (mapRecipe_ingredients _ _ _)]
      exact (core_ingredients auth rid _ _ hIX hn).1
    · rw [update_eq_some auth rid pu db hts]
      simp only [mapRecipe_ingredients]
      refine mapRecipe_preserve _ rid rid _ (fun r => rfl) (fun r hq => hq) ?_
      exact core_ingredients_count auth rid _ _ hIX
        (mapRecipe_establish _ rid Recipe.clearIngredients (fun r => List.nodup_nil)) hn

/-- C10: get-or-create linking is idempotent per name, on create and on
update, for tags and for ingredients: however often a name repeats in the
payload list, afterwards exactly one row of that natural key exists and the
target recipe carries exactly one link to a row of that name. -/
theorem duplicate_names_idempotent (auth rid : Nat) (p : CreatePayload)
    (pu : UpdatePayload) (db : DB) (hT : db.TagsUN) (hI : db.IngredientsUN)
    (hF : db.Fresh) :
    (∀ n ∈ p.tag.getD [],
      (tagRowsFor auth n (RecipeSerializer.create auth p db).2).length = 1 ∧
      ∀ r ∈ (RecipeSerializer.create auth p db).2.recipes,
        r.id = (RecipeSerializer.create auth p db).1.id →
        (r.tagIds.filter (fun i =>
          (RecipeSerializer.create auth p db).2.tags.any
            (fun t => t.id == i && t.user == auth && t.name == n))).length = 1) ∧
    (∀ n ∈ p.ingredient.getD [],
      (ingredientRowsFor auth n (RecipeSerializer.create auth p db).2).length = 1 ∧
      ∀ r ∈ (RecipeSerializer.create auth p db).2.recipes,
        r.id = (RecipeSerializer.create auth p db).1.id →
        (r.ingredientIds.filter (fun i =>
          (RecipeSerializer.create auth p db).2.ingredients.any
            (fun t => t.id == i && t.user == auth && t.name == n))).length = 1) ∧
    (∀ ts : List String, pu.tag = some ts → ∀ n ∈ ts,
      (tagRowsFor auth n (RecipeSerializer.update auth rid pu db)).length = 1 ∧
      ∀ r ∈ (RecipeSerializer.update auth rid pu db).recipes, r.id = rid →
        (r.tagIds.filter (fun i =>
          (RecipeSerializer.update auth rid pu db).tags.any
            (fun t => t.id == i && t.user == auth && t.name == n))).length = 1) ∧
    (∀ n ∈ pu.ingredient.getD [],
      (ingredientRowsFor auth n (RecipeSerializer.update auth rid pu db)).length = 1 ∧
      ∀ r ∈ (RecipeSerializer.update auth rid pu db).recipes, r.id = rid →
        (r.ingredientIds.filter (fun i =>
          (RecipeSerializer.update auth rid pu db).ingredients.any
            (fun t => t.id == i && t.user == auth && t.name == n))).length = 1) := by
  have hfresh : ∀ r ∈ db.recipes, r.id ≠ db.nextRecipeId :=
    fun r hr => Nat.ne_of_lt (hF.2.2 r hr)
  have hnd1t : ∀ r ∈ (insertedDB auth p db).recipes,
      r.id = db.nextRecipeId → r.tagIds.Nodup := by
    intro r hr hrid
    rcases List.mem_append.mp hr with h | h
    · exact absurd hrid (hfresh r h)
    · rw [List.mem_singleton] at h
      subst h
      exact List.nodup_nil
  have hnd1i : ∀ r ∈ (insertedDB auth p db).recipes,
      r.id = db.nextRecipeId → r.ingredientIds.Nodup := by
    intro r hr hrid
    rcases List.mem_append.mp hr with h | h
    · exact absurd hrid (hfresh r h)
    · rw [List.mem_singleton] at h
      subst h
      exact List.nodup_nil
  refine ⟨fun n hn => ?_, fun n hn => ?_, fun ts hts n hn => ?_, fun n hn => ?_⟩
  · exact ⟨(create_tags_core auth db.nextRecipeId (p.tag.getD [])
        (p.ingredient.getD []) (insertedDB auth p db) hT hn).1,
      create_tags_count_core auth db.nextRecipeId (p.tag.getD [])
        (p.ingredient.getD []) (insertedDB auth p db) hT hnd1t hn⟩
  · have hI2 : (getOrCreateTags auth (p.tag.getD []) db.nextRecipeId
        (insertedDB auth p db)).IngredientsUN := by
      unfold DB.IngredientsUN
      rw [getOrCreateTags_ingredients]
      exact hI
    have hnd2 : ∀ r ∈ (getOrCreateTags auth (p.tag.getD []) db.nextRecipeId
        (insertedDB auth p db)).recipes,
        r.id = db.nextRecipeId → r.ingredientIds.Nodup :=
      getOrCreateTags_preserve auth db.nextRecipeId db.nextRecipeId _ _
        (fun tid r h => (addTag_ingredientIds tid r).symm ▸ h) hnd1i
    exact ⟨(core_ingredients auth db.nextRecipeId (p.ingredient.getD []) _ hI2 hn).1,
      core_ingredients_count auth db.nextRecipeId (p.ingredient.getD []) _ hI2 hnd2 hn⟩
  · exact update_tag_counts auth rid pu db hT hts hn
  · exact update_ingredient_counts auth rid pu db hI hn

/-- Witness for C10: duplicated names in concrete create and update payloads
yield one row and one link each, and the concrete resulting tables show it. -/
theorem duplicate_names_idempotent_witness :
    ((tagRowsFor 1 "Thai" (RecipeSerializer.create 1 pC10 dbC10).2).length = 1 ∧
      ∀ r ∈ (RecipeSerializer.create 1 pC10 dbC10).2.recipes,
        r.id = (RecipeSerializer.create 1 pC10 dbC10).1.id →
        (r.tagIds.filter (fun i =>
          (RecipeSerializer.create 1 pC10 dbC10).2.tags.any
            (fun t => t.id == i && t.user == 1 && t.name == "Thai"))).length = 1) ∧
    ((ingredientRowsFor 1 "Salt" (RecipeSerializer.create 1 pC10 dbC10).2).length = 1 ∧
      ∀ r ∈ (RecipeSerializer.create 1 pC10 dbC10).2.recipes,
        r.id = (RecipeSerializer.create 1 pC10 dbC10).1.id →
        (r.ingredientIds.filter (fun i =>
          (RecipeSerializer.create 1 pC10 dbC10).2.ingredients.any
            (fun t => t.id == i && t.user == 1 && t.name == "Salt"))).length = 1) ∧
    ((tagRowsFor 1 "Lunch" (RecipeSerializer.update 1 1 puC10 dbC10)).length = 1 ∧
      ∀ r ∈ (RecipeSerializer.update 1 1 puC10 dbC10).recipes, r.id = 1 →
        (r.tagIds.filter (fun i =>
          (RecipeSerializer.update 1 1 puC10 dbC10).tags.any
            (fun t => t.id == i && t.user == 1 && t.name == "Lunch"))).length = 1) ∧
    ((ingredientRowsFor 1 "Pepper" (RecipeSerializer.update 1 1 puC10 dbC10)).length = 1 ∧
      ∀ r ∈ (RecipeSerializer.update 1 1 puC10 dbC10).recipes, r.id = 1 →
        (r.ingredientIds.filter (fun i =>
          (RecipeSerializer.update 1 1 puC10 dbC10).ingredients.any
            (fun t => t.id == i && t.user == 1 && t.name == "Pepper"))).length = 1) ∧
    (RecipeSerializer.create 1 pC10 dbC10).2.tags = [⟨1, 1, "Thai"⟩] ∧
    (RecipeSerializer.create 1 pC10 dbC10).2.recipes.map Recipe.tagIds = [[], [1]] ∧
    (RecipeSerializer.update 1 1 puC10 dbC10).tags = [⟨1, 1, "Lunch"⟩] ∧
    (RecipeSerializer.update 1 1 puC10 dbC10).recipes.map Recipe.tagIds = [[1]] := by
  have h := duplicate_names_idempotent 1 1 pC10 puC10 dbC10 (by decide) (by decide)
    (by decide)
  exact ⟨h.1 "Thai" (by decide), h.2.1 "Salt" (by decide),
    h.2.2.1 ["Lunch", "Lunch"] rfl "Lunch" (by decide), h.2.2.2 "Pepper" (by decide),
    by decide, by decide, by decide, by decide⟩

end RecipeApi
